import Mathlib

/-!
Verification of the chess board / move-history core of `src/main.py`.

The Python classes are embedded shallowly:

* `ChessPiece` becomes a structure; the mutable piece objects of the source
  are modelled by an arena (`ChessBoard.pieces`, a list indexed by stable
  piece identifiers), so that the reference sharing between tiles and the
  move-history stack is captured faithfully.
* `ChessTile` objects carry a fixed coordinate `(i, j)` and an occupant.
  The 8x8 grid of tiles is flattened to a 64-entry list; the tile at flat
  index `t` is the tile constructed with coordinate `(t / 8, t % 8)`, and its
  occupant is the `Option Nat` stored at index `t` (a piece identifier).
* Python list indexing (negative indices wrap, other out-of-range indices
  raise `IndexError`) is modelled by `pyIdx`; computations that can raise an
  uncaught exception return `Option` (`none` = crash).
* `moves_stack` is `list.append`/`list.pop` at the far end in the source,
  i.e. a LIFO stack; it is modelled most-recent-first (`push` is `cons`,
  `pop` takes the head), which is the same stack.
-/

/-- Coordinates are pairs of Python ints (row, column). -/
abbrev Coord := Int × Int

/-- Embedding of `ChessPiece.__init__` state: piece type character, team,
optional coordinate, and the `_moved` flag. -/
structure ChessPiece where
  piece_type : Char
  team : Int
  coord : Option Coord
  moved : Bool
deriving DecidableEq, Inhabited

/-- Embedding of `ChessPiece.is_moved`: returns the `_moved` flag. -/
def is_moved (p : ChessPiece) : Bool := p.moved

/-- Embedding of `ChessPiece.is_in_play`: true iff the piece has a coordinate. -/
def is_in_play (p : ChessPiece) : Bool := p.coord.isSome

/-- Embedding of `ChessPiece.__init__`: a piece starts with no coordinate and
`_moved = False`. -/
def pieceInit (piece_type : Char) (team : Int) : ChessPiece :=
  { piece_type := piece_type, team := team, coord := none, moved := false }

/-- Board state: the piece arena (indices are piece identifiers, standing for
the Python object references) and the flattened 8x8 tile grid, each entry the
occupant reference of `ChessTile._piece`. -/
structure ChessBoard where
  pieces : List ChessPiece
  tiles : List (Option Nat)
deriving DecidableEq

/-- Game state as in `ChessGame.__init__`: a board and the moves stack.  A
stack record is `[selected coord, destination coord, captured piece]` as
appended by `cmd_move`; the stack is held most-recent-first. -/
structure ChessGame where
  b : ChessBoard
  moves_stack : List (Coord × Coord × Option Nat)
deriving DecidableEq

/-- Python list indexing semantics for a list of length `n`: indices in
`[0, n)` are used directly, indices in `[-n, 0)` wrap around, and anything
else raises `IndexError` (modelled as `none`). -/
def pyIdx (n : Nat) (i : Int) : Option Nat :=
  if 0 ≤ i ∧ i < n then some i.toNat
  else if -(n : Int) ≤ i ∧ i < 0 then some (i + n).toNat
  else none

/-- Resolution of `self._board[coord[0]][coord[1]]` to a flat tile index:
both levels are Python indexing into lists of length 8. -/
def tileIdxOf (c : Coord) : Option Nat := do
  let i ← pyIdx 8 c.1
  let j ← pyIdx 8 c.2
  pure (8 * i + j)

/-- Flat tile index of an in-bounds coordinate. -/
def toIdx (c : Coord) : Nat := 8 * c.1.toNat + c.2.toNat

/-- Fixed coordinate of the tile at flat index `t` (the `_coord` given to the
`ChessTile` constructed at grid position `(t / 8, t % 8)`). -/
def coordOfIdx (t : Nat) : Coord := (((t / 8 : Nat) : Int), ((t % 8 : Nat) : Int))

/-- Both components lie in `[0, 7]`. -/
def inB (c : Coord) : Prop := 0 ≤ c.1 ∧ c.1 < 8 ∧ 0 ≤ c.2 ∧ c.2 < 8

instance (c : Coord) : Decidable (inB c) := by unfold inB; infer_instance

/-- Embedding of `ChessBoard.is_in_bounds`: the loop over the two components
returns `False` as soon as one is negative or exceeds 7. -/
def is_in_bounds (c : Coord) : Bool :=
  if c.1 < 0 ∨ c.1 > 7 then false
  else if c.2 < 0 ∨ c.2 > 7 then false
  else true

/-- Embedding of `ChessBoard.get_tile`: Python-indexes the row list, then the
tile list, and returns the tile — its fixed coordinate together with its
occupant.  `none` is an uncaught `IndexError`. -/
def get_tile (b : ChessBoard) (c : Coord) : Option (Coord × Option Nat) := do
  let i ← pyIdx 8 c.1
  let j ← pyIdx 8 c.2
  let occ ← b.tiles[8 * i + j]?
  pure ((((i : Int)), ((j : Int))), occ)

/-- Tile update (`ChessTile.set_piece` on the tile at flat index `t`). -/
def setOcc (b : ChessBoard) (t : Nat) (v : Option Nat) : ChessBoard :=
  { b with tiles := b.tiles.set t v }

/-- Coordinate update on a piece object (`ChessPiece.set_coord`). -/
def withCoord (p : ChessPiece) (c : Option Coord) : ChessPiece := { p with coord := c }

/-- Arena version of `ChessPiece.set_coord` on the piece named `pid`. -/
def setCoordOf (b : ChessBoard) (pid : Nat) (c : Option Coord) : ChessBoard :=
  { b with pieces := b.pieces.set pid (withCoord (b.pieces.getD pid default) c) }

/-- Embedding of `ChessBoard.set_piece_coord`: resolve the destination tile
(`get_tile(coord)`); if it is occupied, clear that occupant's coordinate;
if the moved piece has a coordinate, resolve and vacate its current tile;
finally occupy the destination tile with the piece and set its coordinate to
the raw `coord` argument.  `none` is an uncaught exception (`IndexError` from
`get_tile`). -/
def set_piece_coord (b : ChessBoard) (pid : Nat) (c : Coord) : Option ChessBoard := do
  let nt ← tileIdxOf c
  let occN ← b.tiles[nt]?
  let b1 :=
    match occN with
    | some qid => setCoordOf b qid none
    | none => b
  let b2 ←
    match (b1.pieces.getD pid default).coord with
    | some pc => do
        let ct ← tileIdxOf pc
        let _ ← b1.tiles[ct]?
        pure (setOcc b1 ct none)
    | none => pure b1
  pure (setCoordOf (setOcc b2 nt (some pid)) pid (some c))

/-- Board state built by `ChessBoard.__init__` just before `set_up_board`:
64 empty tiles (the tile at flat index `t` fixed at coordinate
`(t / 8, t % 8)`) and no pieces yet. -/
def emptyBoard : ChessBoard := { pieces := [], tiles := List.replicate 64 none }

/-- Embedding of `ChessBoard.set_up_row`: for each column `i` in `0..7`,
construct a fresh piece of `format_list[i]` for `team` and place it at
`(row, i)` with `set_piece_coord`. -/
def set_up_row (b : ChessBoard) (row : Int) (fmt : List Char) (team : Int) :
    Option ChessBoard :=
  List.foldlM
    (fun bb i =>
      let bb1 : ChessBoard := { bb with pieces := bb.pieces ++ [pieceInit (fmt.getD i ' ') team] }
      set_piece_coord bb1 bb.pieces.length (row, (i : Int)))
    b (List.range 8)

/-- Back-rank layout `['R','N','B','Q','K','B','N','R']` from `set_up_board`. -/
def backRowFmt : List Char := ['R', 'N', 'B', 'Q', 'K', 'B', 'N', 'R']

/-- Pawn rank layout (eight `'P'`) from `set_up_board`. -/
def pawnRowFmt : List Char := List.replicate 8 'P'

/-- Embedding of `ChessBoard.set_up_board`: rows 0 and 1 for team 2, rows 6
and 7 for team 1. -/
def set_up_board (b : ChessBoard) : Option ChessBoard := do
  let b1 ← set_up_row b 0 backRowFmt 2
  let b2 ← set_up_row b1 1 pawnRowFmt 2
  let b3 ← set_up_row b2 6 pawnRowFmt 1
  set_up_row b3 7 backRowFmt 1

/-- The board produced by `ChessBoard.__init__` (grid construction followed by
`set_up_board`; the `getD` fallback is never taken — see `set_up_board_total`). -/
def B0 : ChessBoard := (set_up_board emptyBoard).getD emptyBoard

/-- The game produced by `ChessGame.__init__`: the initial board and an empty
moves stack. -/
def initGame : ChessGame := { b := B0, moves_stack := [] }

/-- Classification of a `notation_to_coord` call: a returned coordinate, the
printed-and-returned `-1` error (`InvalidNotation`), or an uncaught exception
(`IndexError` from indexing a too-short string). -/
inductive NotationResult where
  | ok (c : Coord)
  | err
  | exn
deriving DecidableEq

/-- File letters `"abcdefgh"` used by the codec. -/
def letters : List Char := ['a', 'b', 'c', 'd', 'e', 'f', 'g', 'h']

/-- Embedding of the letter-search loop in `notation_to_coord`: `tuple_0`
after `for i in range(0, len(letters)): if letters[i] == notation[0]: tuple_0 = i`
(the last matching index survives; the letters are distinct, so it is the only
one). -/
def findLetterIdx (ch : Char) : Option Nat :=
  List.foldl (fun acc i => if letters.getD i ' ' = ch then some i else acc)
    none (List.range 8)

/-- Code points of the first character of each run of ten consecutive Unicode
decimal digits (general category Nd) with values 0 to 9 — exactly the single
characters accepted by Python's `int()` — from the Unicode Character Database
(version 14.0.0, as shipped with CPython's `unicodedata`).  The first entry 48
is ASCII '0'. -/
def pyDecimalBases : List Nat := [
  48, 1632, 1776, 1984, 2406, 2534, 2662, 2790, 2918, 3046,
  3174, 3302, 3430, 3558, 3664, 3792, 3872, 4160, 4240, 6112,
  6160, 6470, 6608, 6784, 6800, 6992, 7088, 7232, 7248, 42528,
  43216, 43264, 43472, 43504, 43600, 44016, 65296, 66720, 68912, 69734,
  69872, 69942, 70096, 70384, 70736, 70864, 71248, 71360, 71472, 71904,
  72016, 72784, 73040, 73120, 92768, 92864, 93008, 120782, 120792, 120802,
  120812, 120822, 123200, 123632, 125264, 130032]

/-- Inclusive code-point ranges of the remaining numeric characters: those on
which Python's `str.isnumeric` returns `True` (Numeric_Type Digit or Numeric,
e.g. '\u00bd' or '\u00b2') but on which `int()` raises `ValueError`, from the
same Unicode Character Database. -/
def pyOtherNumericRanges : List (Nat × Nat) := [
  (178, 179), (185, 185), (188, 190), (2548, 2553), (2930, 2935), (3056, 3058),
  (3192, 3198), (3416, 3422), (3440, 3448), (3882, 3891), (4969, 4988), (5870, 5872),
  (6128, 6137), (6618, 6618), (8304, 8304), (8308, 8313), (8320, 8329), (8528, 8578),
  (8581, 8585), (9312, 9371), (9450, 9471), (10102, 10131), (11517, 11517), (12295, 12295),
  (12321, 12329), (12344, 12346), (12690, 12693), (12832, 12841), (12872, 12879), (12881, 12895),
  (12928, 12937), (12977, 12991), (13317, 13317), (13443, 13443), (14378, 14378), (15181, 15181),
  (19968, 19968), (19971, 19971), (19975, 19975), (19977, 19977), (20061, 20061), (20108, 20108),
  (20116, 20116), (20118, 20118), (20159, 20160), (20191, 20191), (20200, 20200), (20237, 20237),
  (20336, 20336), (20740, 20740), (20806, 20806), (20841, 20841), (20843, 20843), (20845, 20845),
  (21313, 21313), (21315, 21317), (21324, 21324), (21441, 21444), (22235, 22235), (22769, 22769),
  (22777, 22777), (24186, 24186), (24318, 24319), (24332, 24334), (24336, 24336), (25342, 25342),
  (25420, 25420), (26578, 26578), (28422, 28422), (29590, 29590), (30334, 30334), (32902, 32902),
  (33836, 33836), (36014, 36014), (36019, 36019), (36144, 36144), (38433, 38433), (38470, 38470),
  (38476, 38476), (38520, 38520), (38646, 38646), (42726, 42735), (43056, 43061), (63851, 63851),
  (63859, 63859), (63864, 63864), (63922, 63922), (63953, 63953), (63955, 63955), (63997, 63997),
  (65799, 65843), (65856, 65912), (65930, 65931), (66273, 66299), (66336, 66339), (66369, 66369),
  (66378, 66378), (66513, 66517), (67672, 67679), (67705, 67711), (67751, 67759), (67835, 67839),
  (67862, 67867), (68028, 68029), (68032, 68047), (68050, 68095), (68160, 68168), (68221, 68222),
  (68253, 68255), (68331, 68335), (68440, 68447), (68472, 68479), (68521, 68527), (68858, 68863),
  (69216, 69246), (69405, 69414), (69457, 69460), (69573, 69579), (69714, 69733), (70113, 70132),
  (71482, 71483), (71914, 71922), (72794, 72812), (73664, 73684), (74752, 74862), (93019, 93025),
  (93824, 93846), (119520, 119539), (119648, 119672), (125127, 125135), (126065, 126123), (126125, 126127),
  (126129, 126132), (126209, 126253), (126255, 126269), (127232, 127244), (131073, 131073), (131172, 131172),
  (131298, 131298), (131361, 131361), (133418, 133418), (133507, 133507), (133516, 133516), (133532, 133532),
  (133866, 133866), (133885, 133885), (133913, 133913), (140176, 140176), (141720, 141720), (146203, 146203),
  (156269, 156269), (194704, 194704)]

/-- Value of a single character under Python's `int()`: its decimal-digit
value when the character is a Unicode decimal digit (a member of one of the
runs in `pyDecimalBases`), and `none` — a `ValueError` — otherwise. -/
def pyDecimalVal (ch : Char) : Option Nat :=
  (pyDecimalBases.find? (fun base => decide (base ≤ ch.toNat) && decide (ch.toNat < base + 10))).map
    (fun base => ch.toNat - base)

/-- Python's `str.isnumeric` on a single character: true on the decimal
digits and on the remaining numeric characters of `pyOtherNumericRanges`. -/
def pyIsNumeric (ch : Char) : Bool :=
  (pyDecimalVal ch).isSome ||
    pyOtherNumericRanges.any (fun r => decide (r.1 ≤ ch.toNat) && decide (ch.toNat ≤ r.2))

/-- Embedding of `ChessConsole.notation_to_coord`.  The source checks
`len(notation) > 2` (not `!= 2`), then reads `notation[0]` in the letter loop
and `notation[1]` for the numeric check — so strings of length 0 or 1 raise an
uncaught `IndexError` (`exn`).  The numeric check is Python's
`notation[1].isnumeric()` (`pyIsNumeric`), and `int(notation[1])` succeeds
exactly on Unicode decimal digits (`pyDecimalVal`), raising an uncaught
`ValueError` (`exn`) on the other numeric characters such as the vulgar
fractions. -/
def notation_to_coord (s : List Char) : NotationResult :=
  if s.length > 2 then .err
  else
    match s[0]? with
    | none => .exn
    | some c0 =>
      let tuple_0 := findLetterIdx c0
      match s[1]? with
      | none => .exn
      | some c1 =>
        if ¬ pyIsNumeric c1 then .err
        else
          match pyDecimalVal c1 with
          | none => .exn
          | some d =>
            let tuple_1 : Int := 8 - (d : Int)
            match tuple_0 with
            | none => .err
            | some t0 =>
              if tuple_1 < 0 ∨ tuple_1 > 7 then .err
              else .ok (tuple_1, (t0 : Int))

/-- Rank digits by row index: row 0 prints as `'8'`, ..., row 7 as `'1'`. -/
def digitChars : List Char := ['8', '7', '6', '5', '4', '3', '2', '1']

/-- Modelled from the spec: the notation formatter (`format(coord)`).  In the
source, `ChessConsole.ms_get_coord_to_notation` writes the coordinate to
`Microservice/chess_move.txt` and reads back the translation produced by an
external microservice whose code is not in this repository; per the spec the
mapping is the inverse of `parse` — file letter `"abcdefgh"[col]` followed by
the rank digit `8 - row`. -/
def notationOfCoord (c : Coord) : List Char :=
  [letters.getD c.2.toNat ' ', digitChars.getD c.1.toNat ' ']

/-- Embedding of the core of `ChessConsole.cmd_move` after both notations have
been parsed successfully (the parsed source and destination coordinates are
passed in).  Reads the piece at the source (returning `-1` with the game
untouched if the tile is empty), records the destination occupant as the
captured piece, moves with `set_piece_coord`, and pushes
`[piece_coord, destination_coord, destination_piece]`.  The printed report
(which round-trips through the external microservice) does not touch game
state and is not modelled.  `none` is an uncaught exception. -/
def cmd_move_coords (g : ChessGame) (src dst : Coord) : Option (Int × ChessGame) := do
  let st ← tileIdxOf src
  let occS ← g.b.tiles[st]?
  match occS with
  | none => pure (-1, g)
  | some pid => do
      let dt ← tileIdxOf dst
      let occD ← g.b.tiles[dt]?
      let destination_piece := occD
      let b2 ← set_piece_coord g.b pid dst
      pure (0, { b := b2, moves_stack := (src, dst, destination_piece) :: g.moves_stack })

/-- Embedding of `ChessConsole.cmd_move` on the two argument tokens: the
validity check parses both notations (short-circuiting as the Python `or`
does), returns `-1` on an invalid notation, and otherwise runs the move. -/
def cmd_move (g : ChessGame) (a0 a1 : List Char) : Option (Int × ChessGame) :=
  match notation_to_coord a0 with
  | .exn => none
  | .err => some (-1, g)
  | .ok src =>
    match notation_to_coord a1 with
    | .exn => none
    | .err => some (-1, g)
    | .ok dst => cmd_move_coords g src dst

/-- Embedding of `ChessConsole.cmd_undo`: with an empty stack print and return
`-1`; otherwise pop the last record, read the piece at the destination (an
`AttributeError` crash if that tile is empty — modelled as `none`), relocate
it to the source, and restore any captured piece at the destination. -/
def cmd_undo (g : ChessGame) : Option (Int × ChessGame) :=
  match g.moves_stack with
  | [] => some (-1, g)
  | (last_move_select_coord, last_move_dest_coord, last_move_captured_piece) :: rest => do
      let dt ← tileIdxOf last_move_dest_coord
      let occD ← g.b.tiles[dt]?
      let moved_piece ← occD
      let b1 ← set_piece_coord g.b moved_piece last_move_select_coord
      let b2 ←
        match last_move_captured_piece with
        | some cpid => set_piece_coord b1 cpid last_move_dest_coord
        | none => pure b1
      pure (0, { b := b2, moves_stack := rest })

/-- Iterated `cmd_move_coords`, requiring every move to succeed with status 0. -/
def applyMoves (g : ChessGame) : List (Coord × Coord) → Option ChessGame
  | [] => some g
  | m :: ms =>
    match cmd_move_coords g m.1 m.2 with
    | some (0, g1) => applyMoves g1 ms
    | _ => none

/-- One undo, required to succeed with status 0. -/
def undo1 (g : ChessGame) : Option ChessGame :=
  match cmd_undo g with
  | some (0, g1) => some g1
  | _ => none

/-- Iterated undo: `n` successive undos, each required to succeed with status 0. -/
def undoN : Nat → ChessGame → Option ChessGame
  | 0, g => some g
  | n + 1, g => (undo1 g).bind (undoN n)

/-- Embedding of `ConsoleCommand.__init__` metadata (the handler function is
identified by the command name). -/
structure ConsoleCommand where
  cmd_name : List Char
  cmd_arg_count : Nat
  cmd_help_string : String
  cmd_detail_string : String
deriving DecidableEq

/-- The command registry built in `ChessConsole.__init__`, in insertion
order, with each command's `cmd_arg_count` (the token count including the
command word itself). -/
def command_dict : List ConsoleCommand :=
  [{ cmd_name := ['h', 'e', 'l', 'p'], cmd_arg_count := 2,
     cmd_help_string := "Provide usage information for commands. 'help [command]' for specific command details.",
     cmd_detail_string := "Provide usage information for commands. 'help [command]' for details on command; 'help all' for an overview of all available commands." },
   { cmd_name := ['b', 'o', 'a', 'r', 'd'], cmd_arg_count := 1,
     cmd_help_string := "Prints the board to the console.",
     cmd_detail_string := "Prints the board to the console in a visual format." },
   { cmd_name := ['m', 'o', 'v', 'e'], cmd_arg_count := 3,
     cmd_help_string := "Move a piece.",
     cmd_detail_string := "Attempts to move a piece from the coordinates of the first argument to that of the second argument.\nUsage: 'move a7 a5'" },
   { cmd_name := ['n', 'e', 'w', 'g', 'a', 'm', 'e'], cmd_arg_count := 1,
     cmd_help_string := "Reset the board.",
     cmd_detail_string := "Starts a new game of chess, with all pieces set back to their initial positions. The status of the ongoing game is also cleared." },
   { cmd_name := ['s', 'a', 'v', 'e'], cmd_arg_count := 1,
     cmd_help_string := "Saves the game.",
     cmd_detail_string := "Saves the game to the 'save_file' file.\nOnly one save file is available, and any existing saved data is overwritten by this command." },
   { cmd_name := ['l', 'o', 'a', 'd'], cmd_arg_count := 1,
     cmd_help_string := "Loads a game.",
     cmd_detail_string := "Loads the existing 'save_file' data as a game.\nOnly one save file is available, and any ongoing game will be overwritten." },
   { cmd_name := ['u', 'n', 'd', 'o'], cmd_arg_count := 1,
     cmd_help_string := "Undoes the last move.",
     cmd_detail_string := "Undoes the most recently played move, restoring the previous game state." },
   { cmd_name := ['e', 'x', 'i', 't'], cmd_arg_count := 1,
     cmd_help_string := "Exit the program.",
     cmd_detail_string := "Exits the program without saving." }]

/-- Dictionary lookup `arguments[0] in self._command_dict`. -/
def findCommand (w : List Char) : Option ConsoleCommand :=
  command_dict.find? (fun cmd => cmd.cmd_name == w)

/-- Whitespace tokenizer modelling Python `str.split()` (splits on runs of
whitespace and drops empty tokens). -/
def pySplitAux : List Char → List Char → List (List Char)
  | [], cur => if cur = [] then [] else [cur.reverse]
  | ch :: rest, cur =>
    if ch.isWhitespace then
      if cur = [] then pySplitAux rest [] else cur.reverse :: pySplitAux rest []
    else pySplitAux rest (ch :: cur)

/-- Python `input_string.split()`. -/
def pySplit (l : List Char) : List (List Char) := pySplitAux l []

/-- Outcome of `ChessConsole.get_input` on a supplied command line, up to the
handler call: the three diagnostic failures each return `-1`; `invoke` stands
for `command.cmd_function(arguments)` after `del arguments[0]`; `exn` is the
uncaught `IndexError` on `arguments[0]` when the line is whitespace only. -/
inductive DispatchResult where
  | emptyInput
  | unknownCommand (w : List Char)
  | arityError
  | invoke (w : List Char) (args : List (List Char))
  | exn
deriving DecidableEq

/-- Embedding of `ChessConsole.get_input` on a provided `input_string` (the
interactive prompt path merely obtains this string from the console). -/
def get_input (input_string : List Char) : DispatchResult :=
  if input_string.length = 0 then .emptyInput
  else
    let arguments := pySplit input_string
    match arguments with
    | [] => .exn
    | w :: _ =>
      match findCommand w with
      | none => .unknownCommand w
      | some command =>
        if arguments.length ≠ command.cmd_arg_count then .arityError
        else .invoke w (arguments.drop 1)

/-- Status code seen by the caller of `get_input` for dispatch-level results
(`none` when the handler decides, i.e. for `invoke`, or on a crash). -/
def dispatch_code : DispatchResult → Option Int
  | .emptyInput => some (-1)
  | .unknownCommand _ => some (-1)
  | .arityError => some (-1)
  | .invoke _ _ => none
  | .exn => none

instance instDecForallSome {α : Type} (o : Option α) (P : α → Prop) [DecidablePred P] :
    Decidable (∀ x, o = some x → P x) :=
  match o with
  | none => isTrue (by intro x hx; cases hx)
  | some a =>
    decidable_of_iff (P a)
      (Iff.intro (fun h x hx => by injection hx with hh; exact hh ▸ h) (fun h => h a rfl))

/-- Tile-to-piece direction of the board invariant at tile `t`: an occupied
tile's occupant is a piece of the arena whose recorded coordinate is the
tile's fixed coordinate. -/
def TileClause (b : ChessBoard) (t : Nat) : Prop :=
  ∀ o, b.tiles[t]? = some o → ∀ pid, o = some pid →
    pid < b.pieces.length ∧
    ∀ p, b.pieces[pid]? = some p → p.coord = some (coordOfIdx t)

/-- Piece-to-tile direction of the board invariant at piece `pid`: a piece
with a recorded coordinate is held exactly at the tile of that coordinate. -/
def PieceClause (b : ChessBoard) (pid : Nat) : Prop :=
  ∀ p, b.pieces[pid]? = some p → ∀ c, p.coord = some c →
    inB c ∧ b.tiles[toIdx c]? = some (some pid)

/-- Bidirectional piece-tile consistency of a board. -/
def Consistent (b : ChessBoard) : Prop :=
  b.tiles.length = 64 ∧
  (∀ pid, pid < b.pieces.length → PieceClause b pid) ∧
  (∀ t, t < 64 → TileClause b t)

instance (b : ChessBoard) (t : Nat) : Decidable (TileClause b t) := by
  unfold TileClause
  infer_instance

instance (b : ChessBoard) (pid : Nat) : Decidable (PieceClause b pid) := by
  unfold PieceClause
  infer_instance

instance (b : ChessBoard) : Decidable (Consistent b) := by
  unfold Consistent
  infer_instance

/-- Game states whose moves stack is exactly the record of successful
in-bounds `cmd_move_coords` calls made from some consistent stack-free base
state. -/
inductive GoodStack : ChessGame → Prop
  | base : ∀ b : ChessBoard, Consistent b → GoodStack { b := b, moves_stack := [] }
  | step : ∀ (g : ChessGame) (src dst : Coord) (g' : ChessGame), GoodStack g →
      inB src → inB dst → cmd_move_coords g src dst = some (0, g') → GoodStack g'

/-- Game states reachable through the console operations: a fresh game
(`ChessGame.__init__`, also the accepted `newgame` path) followed by any
sequence of `cmd_move_coords` and `cmd_undo` calls with in-bounds parsed
coordinates. -/
inductive Reachable : ChessGame → Prop
  | newgame : Reachable initGame
  | move : ∀ (g : ChessGame) (src dst : Coord) (r : Int) (g' : ChessGame), Reachable g →
      inB src → inB dst → cmd_move_coords g src dst = some (r, g') → Reachable g'
  | undo : ∀ (g : ChessGame) (r : Int) (g' : ChessGame), Reachable g →
      cmd_undo g = some (r, g') → Reachable g'

/-- Success condition for `notation_to_coord`: exactly two characters, a
decimal digit of value in `[1, 8]` in second position, a file letter in first
position, and the result is `(8 - digit, letter index)`. -/
def OkCond (s : List Char) (c : Coord) : Prop :=
  ∃ a b k d, s = [a, b] ∧ pyDecimalVal b = some d ∧ findLetterIdx a = some k ∧
    1 ≤ d ∧ d ≤ 8 ∧ c = (8 - (d : Int), (k : Int))

/-- The `InvalidNotation` (printed error, return value `-1`) condition for
`notation_to_coord`: length greater than two, or exactly two characters with
a non-numeric second character, or a decimal second character together with a
non-letter in first position or a digit value outside `[1, 8]`. -/
def ErrCond (s : List Char) : Prop :=
  2 < s.length ∨ (s.length = 2 ∧
    (pyIsNumeric (s.getD 1 ' ') = false ∨
      ∃ d, pyDecimalVal (s.getD 1 ' ') = some d ∧
        (s.getD 0 ' ' ∉ letters ∨ d < 1 ∨ 8 < d)))

/-- The uncaught-exception condition for `notation_to_coord`: an input
shorter than two characters (`IndexError`), or exactly two characters whose
second is numeric but not a decimal digit, so that `int()` raises
`ValueError`. -/
def ExnCond (s : List Char) : Prop :=
  s.length < 2 ∨ (s.length = 2 ∧ pyIsNumeric (s.getD 1 ' ') = true ∧
    pyDecimalVal (s.getD 1 ' ') = none)

/-- Python-acceptable index range for the 8-row/8-column board lists:
`[-8, 8)` in each component (negative indices wrap). -/
def pyInRange (c : Coord) : Prop := -8 ≤ c.1 ∧ c.1 < 8 ∧ -8 ≤ c.2 ∧ c.2 < 8

instance (c : Coord) : Decidable (pyInRange c) := by unfold pyInRange; infer_instance

/-- Rank digit characters accepted by a well-formed notation. -/
def digits : List Char := ['1', '2', '3', '4', '5', '6', '7', '8']

/-- List extensionality through optional indexing. -/
theorem list_ext_g {α : Type} (l₁ l₂ : List α) (h : ∀ i : Nat, l₁[i]? = l₂[i]?) : l₁ = l₂ :=
  List.ext_get?_iff.mpr fun n => by rw [List.get?_eq_getElem?, List.get?_eq_getElem?]; exact h n

/-- Writing the value already stored at an index leaves the list unchanged. -/
theorem list_set_self {α : Type} (l : List α) (i : Nat) (a : α) (h : l[i]? = some a) :
    l.set i a = l := by
  apply list_ext_g
  intro j
  by_cases hj : i = j
  · subst hj
    rw [List.getElem?_set_eq_of_lt]
    · exact h.symm
    · by_contra hlt
      push_neg at hlt
      rw [List.getElem?_eq_none hlt] at h
      cases h
  · rw [List.getElem?_set_ne hj]

/-- Valid indices have a value. -/
theorem getElem?_isSome_of_lt {α : Type} (l : List α) (i : Nat) (h : i < l.length) :
    ∃ a, l[i]? = some a := by
  rw [List.getElem?_eq_getElem h]
  exact ⟨_, rfl⟩

/-- On an in-bounds coordinate Python indexing is plain indexing. -/
theorem tileIdxOf_inB (c : Coord) (h : inB c) : tileIdxOf c = some (toIdx c) := by
  obtain ⟨h1, h2, h3, h4⟩ := h
  unfold tileIdxOf pyIdx toIdx
  simp only [Option.bind_eq_bind]
  rw [if_pos ⟨h1, by exact_mod_cast h2⟩]
  rw [Option.some_bind]
  rw [if_pos ⟨h3, by exact_mod_cast h4⟩]
  rfl

theorem toIdx_lt (c : Coord) (h : inB c) : toIdx c < 64 := by
  obtain ⟨h1, h2, h3, h4⟩ := h
  unfold toIdx
  omega

theorem coordOfIdx_toIdx (c : Coord) (h : inB c) : coordOfIdx (toIdx c) = c := by
  obtain ⟨h1, h2, h3, h4⟩ := h
  unfold coordOfIdx toIdx
  obtain ⟨x, y⟩ := c
  simp only [Prod.mk.injEq]
  constructor
  · simp only at h1 h2 h3 h4
    omega
  · simp only at h1 h2 h3 h4
    omega

theorem inB_coordOfIdx (t : Nat) (h : t < 64) : inB (coordOfIdx t) := by
  unfold coordOfIdx inB
  refine ⟨by omega, by omega, by omega, by omega⟩

theorem toIdx_coordOfIdx (t : Nat) (h : t < 64) : toIdx (coordOfIdx t) = t := by
  unfold coordOfIdx toIdx
  simp only
  omega

theorem toIdx_inj (c d : Coord) (hc : inB c) (hd : inB d) (h : toIdx c = toIdx d) : c = d := by
  have := coordOfIdx_toIdx c hc
  have := coordOfIdx_toIdx d hd
  rw [← coordOfIdx_toIdx c hc, ← coordOfIdx_toIdx d hd, h]

/-- Setting up the full board from the empty board succeeds (so the `getD`
fallback in `B0` is never taken). -/
theorem set_up_board_total : set_up_board emptyBoard = some B0 := by decide

/-- The initial board is consistent. -/
theorem consistent_B0 : Consistent B0 := by decide

theorem lt_of_getElem?_some {α : Type} {l : List α} {i : Nat} {a : α}
    (h : l[i]? = some a) : i < l.length := by
  by_contra hlt
  push_neg at hlt
  rw [List.getElem?_eq_none hlt] at h
  cases h

theorem getD_eq_of_getElem? {α : Type} [Inhabited α] {l : List α} {i : Nat} {a : α}
    (h : l[i]? = some a) : l.getD i default = a := by
  rw [List.getD_eq_getElem?_getD, h]
  rfl

theorem board_eq_of (b b' : ChessBoard) (hp : b.pieces = b'.pieces)
    (ht : b.tiles = b'.tiles) : b = b' := by
  cases b
  cases b'
  simp only at hp ht
  rw [hp, ht]

theorem withCoord_cancel (p : ChessPiece) (x y : Option Coord) :
    withCoord (withCoord p x) y = withCoord p y := rfl

theorem withCoord_eq_self (p : ChessPiece) (c : Option Coord) (h : p.coord = c) :
    withCoord p c = p := by
  subst h
  cases p
  rfl

/-- Characterization of a self-move: placing a piece on the tile it already
occupies leaves the board exactly unchanged. -/
theorem spc_self (b : ChessBoard) (pid : Nat) (c : Coord) (p : ChessPiece)
    (hc : inB c) (hp : b.pieces[pid]? = some p) (hpc : p.coord = some c)
    (hD : b.tiles[toIdx c]? = some (some pid)) :
    set_piece_coord b pid c = some b := by
  have hgD : b.pieces.getD pid default = p := getD_eq_of_getElem? hp
  have hplt : pid < b.pieces.length := lt_of_getElem?_some hp
  unfold set_piece_coord
  rw [tileIdxOf_inB c hc]
  simp only [Option.bind_eq_bind, Option.some_bind]
  rw [hD]
  simp only [Option.some_bind]
  have h1 : (setCoordOf b pid none).pieces.getD pid default = withCoord p none := by
    apply getD_eq_of_getElem?
    simp only [setCoordOf]
    rw [List.getElem?_set_eq_of_lt _ hplt, hgD]
  rw [h1]
  simp only [withCoord, Option.some_bind, Option.pure_def]
  congr 1
  apply board_eq_of
  · simp only [setCoordOf, setOcc, hgD]
    have h2 : (b.pieces.set pid (withCoord p none)).getD pid default = withCoord p none := by
      apply getD_eq_of_getElem?
      exact List.getElem?_set_eq_of_lt _ hplt
    rw [h2, withCoord_cancel, withCoord_eq_self p (some c) hpc, List.set_set,
      list_set_self _ _ _ hp]
  · simp only [setCoordOf, setOcc]
    exact list_set_self _ _ _ hD

/-- Characterization of a move of an in-play piece onto an empty tile. -/
theorem spc_char_A (b : ChessBoard) (pid : Nat) (src dst : Coord) (p : ChessPiece)
    (hs : inB src) (hd : inB dst)
    (hp : b.pieces[pid]? = some p) (hpc : p.coord = some src)
    (hD : b.tiles[toIdx dst]? = some none)
    (hlen : b.tiles.length = 64) :
    set_piece_coord b pid dst =
      some (setCoordOf (setOcc (setOcc b (toIdx src) none) (toIdx dst) (some pid))
        pid (some dst)) := by
  have hgD : b.pieces.getD pid default = p := getD_eq_of_getElem? hp
  unfold set_piece_coord
  rw [tileIdxOf_inB dst hd]
  simp only [Option.bind_eq_bind, Option.some_bind]
  rw [hD]
  simp only [Option.some_bind]
  split
  case _ pc hpc2 =>
    rw [hgD, hpc] at hpc2
    injection hpc2 with hpc3
    subst hpc3
    rw [tileIdxOf_inB src hs]
    simp only [Option.some_bind]
    obtain ⟨v, hv⟩ := getElem?_isSome_of_lt b.tiles (toIdx src)
      (by rw [hlen]; exact toIdx_lt src hs)
    rw [hv]
    simp only [Option.some_bind, Option.pure_def]
  case _ hpc2 =>
    rw [hgD, hpc] at hpc2
    cases hpc2

/-- Characterization of a capturing move of an in-play piece onto a tile
occupied by a different piece. -/
theorem spc_char_B (b : ChessBoard) (pid qid : Nat) (src dst : Coord) (p : ChessPiece)
    (hs : inB src) (hd : inB dst)
    (hp : b.pieces[pid]? = some p) (hpc : p.coord = some src)
    (hD : b.tiles[toIdx dst]? = some (some qid)) (hqp : qid ≠ pid)
    (hlen : b.tiles.length = 64) :
    set_piece_coord b pid dst =
      some (setCoordOf (setOcc (setOcc (setCoordOf b qid none) (toIdx src) none)
        (toIdx dst) (some pid)) pid (some dst)) := by
  have hgD : (setCoordOf b qid none).pieces.getD pid default = p := by
    apply getD_eq_of_getElem?
    simp only [setCoordOf]
    rw [List.getElem?_set_ne hqp]
    exact hp
  unfold set_piece_coord
  rw [tileIdxOf_inB dst hd]
  simp only [Option.bind_eq_bind, Option.some_bind]
  rw [hD]
  simp only [Option.some_bind]
  split
  case _ pc hpc2 =>
    rw [hgD, hpc] at hpc2
    injection hpc2 with hpc3
    subst hpc3
    rw [tileIdxOf_inB src hs]
    simp only [Option.some_bind]
    obtain ⟨v, hv⟩ := getElem?_isSome_of_lt (setCoordOf b qid none).tiles (toIdx src)
      (by simp only [setCoordOf]; rw [hlen]; exact toIdx_lt src hs)
    rw [hv]
    simp only [Option.some_bind, Option.pure_def]
  case _ hpc2 =>
    rw [hgD, hpc] at hpc2
    cases hpc2

/-- Characterization of placing a not-in-play piece on an empty tile. -/
theorem spc_char_D (b : ChessBoard) (pid : Nat) (dst : Coord) (p : ChessPiece)
    (hd : inB dst)
    (hp : b.pieces[pid]? = some p) (hpc : p.coord = none)
    (hD : b.tiles[toIdx dst]? = some none) :
    set_piece_coord b pid dst =
      some (setCoordOf (setOcc b (toIdx dst) (some pid)) pid (some dst)) := by
  have hgD : b.pieces.getD pid default = p := getD_eq_of_getElem? hp
  unfold set_piece_coord
  rw [tileIdxOf_inB dst hd]
  simp only [Option.bind_eq_bind, Option.some_bind]
  rw [hD]
  simp only [Option.some_bind]
  rw [hgD, hpc]
  simp only [Option.some_bind, Option.pure_def]

/-- Characterization of placing a not-in-play piece on a tile occupied by a
different piece. -/
theorem spc_char_E (b : ChessBoard) (pid qid : Nat) (dst : Coord) (p : ChessPiece)
    (hd : inB dst)
    (hp : b.pieces[pid]? = some p) (hpc : p.coord = none)
    (hD : b.tiles[toIdx dst]? = some (some qid)) (hqp : qid ≠ pid) :
    set_piece_coord b pid dst =
      some (setCoordOf (setOcc (setCoordOf b qid none) (toIdx dst) (some pid))
        pid (some dst)) := by
  have hgD : (setCoordOf b qid none).pieces.getD pid default = p := by
    apply getD_eq_of_getElem?
    simp only [setCoordOf]
    rw [List.getElem?_set_ne hqp]
    exact hp
  unfold set_piece_coord
  rw [tileIdxOf_inB dst hd]
  simp only [Option.bind_eq_bind, Option.some_bind]
  rw [hD]
  simp only [Option.some_bind]
  rw [hgD, hpc]
  simp only [Option.some_bind, Option.pure_def]

/-- Consistency is preserved by a move of an in-play piece to an empty tile. -/
theorem consistent_A (b : ChessBoard) (pid : Nat) (src dst : Coord) (p : ChessPiece)
    (hC : Consistent b) (hs : inB src) (hd : inB dst)
    (hp : b.pieces[pid]? = some p) (hpc : p.coord = some src)
    (hS : b.tiles[toIdx src]? = some (some pid))
    (hD : b.tiles[toIdx dst]? = some none) :
    Consistent (setCoordOf (setOcc (setOcc b (toIdx src) none) (toIdx dst) (some pid))
      pid (some dst)) := by
  obtain ⟨hlen, hPC, hTC⟩ := hC
  have hplt : pid < b.pieces.length := lt_of_getElem?_some hp
  have hSlt : toIdx src < b.tiles.length := lt_of_getElem?_some hS
  have hDlt : toIdx dst < b.tiles.length := lt_of_getElem?_some hD
  have hSD : toIdx src ≠ toIdx dst := by
    intro hh
    rw [hh, hD] at hS
    cases hS
  have hpieces : (setCoordOf (setOcc (setOcc b (toIdx src) none) (toIdx dst) (some pid))
      pid (some dst)).pieces = b.pieces.set pid (withCoord p (some dst)) := by
    simp only [setCoordOf, setOcc]
    rw [getD_eq_of_getElem? hp]
  have htiles : (setCoordOf (setOcc (setOcc b (toIdx src) none) (toIdx dst) (some pid))
      pid (some dst)).tiles = (b.tiles.set (toIdx src) none).set (toIdx dst) (some pid) := rfl
  refine ⟨?_, ?_, ?_⟩
  · rw [htiles]
    simp only [List.length_set]
    exact hlen
  · intro i hilt
    rw [hpieces] at hilt
    simp only [List.length_set] at hilt
    intro pq hpq c2 hc2
    rw [hpieces] at hpq
    by_cases hi : i = pid
    · subst hi
      rw [List.getElem?_set_eq_of_lt _ hplt] at hpq
      injection hpq with hpq1
      subst hpq1
      simp only [withCoord] at hc2
      injection hc2 with hc3
      subst hc3
      refine ⟨hd, ?_⟩
      rw [htiles]
      rw [List.getElem?_set_eq_of_lt]
      simp only [List.length_set]
      exact hDlt
    · rw [List.getElem?_set_ne (fun hh => hi hh.symm)] at hpq
      obtain ⟨hin, htl⟩ := hPC i hilt pq hpq c2 hc2
      refine ⟨hin, ?_⟩
      have hne1 : toIdx c2 ≠ toIdx dst := by
        intro hh
        rw [hh, hD] at htl
        cases htl
      have hne2 : toIdx c2 ≠ toIdx src := by
        intro hh
        rw [hh, hS] at htl
        injection htl with hh2
        injection hh2 with hh3
        exact hi hh3.symm
      rw [htiles, List.getElem?_set_ne (fun hh => hne1 hh.symm),
        List.getElem?_set_ne (fun hh => hne2 hh.symm)]
      exact htl
  · intro t htlt o hto i hoi
    subst hoi
    rw [htiles] at hto
    by_cases ht : t = toIdx dst
    · subst ht
      rw [List.getElem?_set_eq_of_lt] at hto
      · injection hto with hto1
        injection hto1 with hto2
        subst hto2
        constructor
        · rw [hpieces]
          simp only [List.length_set]
          exact hplt
        · intro pq hpq
          rw [hpieces, List.getElem?_set_eq_of_lt _ hplt] at hpq
          injection hpq with hpq1
          subst hpq1
          simp only [withCoord]
          rw [coordOfIdx_toIdx dst hd]
      · simp only [List.length_set]
        exact hDlt
    · rw [List.getElem?_set_ne (fun hh => ht hh.symm)] at hto
      by_cases hts : t = toIdx src
      · subst hts
        rw [List.getElem?_set_eq_of_lt _ hSlt] at hto
        injection hto with hto1
        cases hto1
      · rw [List.getElem?_set_ne (fun hh => hts hh.symm)] at hto
        have ht64 : t < 64 := by
          rw [← hlen]
          exact lt_of_getElem?_some hto
        obtain ⟨hilt, hcl⟩ := hTC t ht64 (some i) hto i rfl
        have hipid : i ≠ pid := by
          intro hh
          subst hh
          have := hcl p hp
          rw [hpc] at this
          injection this with hh2
          apply hts
          rw [← toIdx_coordOfIdx t ht64, ← hh2]
        constructor
        · rw [hpieces]
          simp only [List.length_set]
          exact hilt
        · intro pq hpq
          rw [hpieces, List.getElem?_set_ne (fun hh => hipid hh.symm)] at hpq
          exact hcl pq hpq

/-- Consistency is preserved by a capturing move of an in-play piece. -/
theorem consistent_B (b : ChessBoard) (pid qid : Nat) (src dst : Coord) (p q : ChessPiece)
    (hC : Consistent b) (hs : inB src) (hd : inB dst)
    (hp : b.pieces[pid]? = some p) (hpc : p.coord = some src)
    (hq : b.pieces[qid]? = some q)
    (hS : b.tiles[toIdx src]? = some (some pid))
    (hD : b.tiles[toIdx dst]? = some (some qid)) (hqp : qid ≠ pid) :
    Consistent (setCoordOf (setOcc (setOcc (setCoordOf b qid none) (toIdx src) none)
      (toIdx dst) (some pid)) pid (some dst)) := by
  obtain ⟨hlen, hPC, hTC⟩ := hC
  have hplt : pid < b.pieces.length := lt_of_getElem?_some hp
  have hqlt : qid < b.pieces.length := lt_of_getElem?_some hq
  have hSlt : toIdx src < b.tiles.length := lt_of_getElem?_some hS
  have hDlt : toIdx dst < b.tiles.length := lt_of_getElem?_some hD
  have hD64 : toIdx dst < 64 := by rw [← hlen]; exact hDlt
  have hSD : toIdx src ≠ toIdx dst := by
    intro hh
    rw [hh, hD] at hS
    injection hS with h1
    injection h1 with h2
    exact hqp h2
  have hqcoord : q.coord = some (coordOfIdx (toIdx dst)) := by
    obtain ⟨h1, h2⟩ := hTC (toIdx dst) hD64 (some qid) hD qid rfl
    exact h2 q hq
  have hpieces : (setCoordOf (setOcc (setOcc (setCoordOf b qid none) (toIdx src) none)
      (toIdx dst) (some pid)) pid (some dst)).pieces =
      (b.pieces.set qid (withCoord q none)).set pid (withCoord p (some dst)) := by
    simp only [setCoordOf, setOcc]
    rw [getD_eq_of_getElem? hq]
    have h2 : (b.pieces.set qid (withCoord q none)).getD pid default = p := by
      apply getD_eq_of_getElem?
      rw [List.getElem?_set_ne hqp]
      exact hp
    rw [h2]
  have htiles : (setCoordOf (setOcc (setOcc (setCoordOf b qid none) (toIdx src) none)
      (toIdx dst) (some pid)) pid (some dst)).tiles =
      (b.tiles.set (toIdx src) none).set (toIdx dst) (some pid) := rfl
  refine ⟨?_, ?_, ?_⟩
  · rw [htiles]
    simp only [List.length_set]
    exact hlen
  · intro i hilt
    rw [hpieces] at hilt
    simp only [List.length_set] at hilt
    intro pq hpq c2 hc2
    rw [hpieces] at hpq
    by_cases hi : i = pid
    · subst hi
      rw [List.getElem?_set_eq_of_lt] at hpq
      · injection hpq with hpq1
        subst hpq1
        simp only [withCoord] at hc2
        injection hc2 with hc3
        subst hc3
        refine ⟨hd, ?_⟩
        rw [htiles]
        rw [List.getElem?_set_eq_of_lt]
        simp only [List.length_set]
        exact hDlt
      · simp only [List.length_set]
        exact hplt
    · rw [List.getElem?_set_ne (fun hh => hi hh.symm)] at hpq
      by_cases hiq : i = qid
      · subst hiq
        rw [List.getElem?_set_eq_of_lt _ hqlt] at hpq
        injection hpq with hpq1
        subst hpq1
        simp only [withCoord] at hc2
        cases hc2
      · rw [List.getElem?_set_ne (fun hh => hiq hh.symm)] at hpq
        obtain ⟨hin, htl⟩ := hPC i hilt pq hpq c2 hc2
        refine ⟨hin, ?_⟩
        have hne1 : toIdx c2 ≠ toIdx dst := by
          intro hh
          rw [hh, hD] at htl
          injection htl with h1
          injection h1 with h2
          exact hiq h2.symm
        have hne2 : toIdx c2 ≠ toIdx src := by
          intro hh
          rw [hh, hS] at htl
          injection htl with h1
          injection h1 with h2
          exact hi h2.symm
        rw [htiles, List.getElem?_set_ne (fun hh => hne1 hh.symm),
          List.getElem?_set_ne (fun hh => hne2 hh.symm)]
        exact htl
  · intro t htlt o hto i hoi
    subst hoi
    rw [htiles] at hto
    by_cases ht : t = toIdx dst
    · subst ht
      rw [List.getElem?_set_eq_of_lt] at hto
      · injection hto with hto1
        injection hto1 with hto2
        subst hto2
        constructor
        · rw [hpieces]
          simp only [List.length_set]
          exact hplt
        · intro pq hpq
          rw [hpieces, List.getElem?_set_eq_of_lt] at hpq
          · injection hpq with hpq1
            subst hpq1
            simp only [withCoord]
            rw [coordOfIdx_toIdx dst hd]
          · simp only [List.length_set]
            exact hplt
      · simp only [List.length_set]
        exact hDlt
    · rw [List.getElem?_set_ne (fun hh => ht hh.symm)] at hto
      by_cases hts : t = toIdx src
      · subst hts
        rw [List.getElem?_set_eq_of_lt _ hSlt] at hto
        injection hto with hto1
        cases hto1
      · rw [List.getElem?_set_ne (fun hh => hts hh.symm)] at hto
        have ht64 : t < 64 := by
          rw [← hlen]
          exact lt_of_getElem?_some hto
        obtain ⟨hilt, hcl⟩ := hTC t ht64 (some i) hto i rfl
        have hipid : i ≠ pid := by
          intro hh
          subst hh
          have := hcl p hp
          rw [hpc] at this
          injection this with hh2
          apply hts
          rw [← toIdx_coordOfIdx t ht64, ← hh2]
        have hiqid : i ≠ qid := by
          intro hh
          subst hh
          have := hcl q hq
          rw [hqcoord] at this
          injection this with hh2
          apply ht
          rw [← toIdx_coordOfIdx t ht64, ← hh2, toIdx_coordOfIdx (toIdx dst) hD64]
        constructor
        · rw [hpieces]
          simp only [List.length_set]
          exact hilt
        · intro pq hpq
          rw [hpieces, List.getElem?_set_ne (fun hh => hipid hh.symm),
            List.getElem?_set_ne (fun hh => hiqid hh.symm)] at hpq
          exact hcl pq hpq

/-- Consistency is preserved by placing a not-in-play piece on an empty tile. -/
theorem consistent_D (b : ChessBoard) (pid : Nat) (dst : Coord) (p : ChessPiece)
    (hC : Consistent b) (hd : inB dst)
    (hp : b.pieces[pid]? = some p) (hpc : p.coord = none)
    (hD : b.tiles[toIdx dst]? = some none) :
    Consistent (setCoordOf (setOcc b (toIdx dst) (some pid)) pid (some dst)) := by
  obtain ⟨hlen, hPC, hTC⟩ := hC
  have hplt : pid < b.pieces.length := lt_of_getElem?_some hp
  have hDlt : toIdx dst < b.tiles.length := lt_of_getElem?_some hD
  have hpieces : (setCoordOf (setOcc b (toIdx dst) (some pid)) pid (some dst)).pieces =
      b.pieces.set pid (withCoord p (some dst)) := by
    simp only [setCoordOf, setOcc]
    rw [getD_eq_of_getElem? hp]
  have htiles : (setCoordOf (setOcc b (toIdx dst) (some pid)) pid (some dst)).tiles =
      b.tiles.set (toIdx dst) (some pid) := rfl
  refine ⟨?_, ?_, ?_⟩
  · rw [htiles]
    simp only [List.length_set]
    exact hlen
  · intro i hilt
    rw [hpieces] at hilt
    simp only [List.length_set] at hilt
    intro pq hpq c2 hc2
    rw [hpieces] at hpq
    by_cases hi : i = pid
    · subst hi
      rw [List.getElem?_set_eq_of_lt _ hplt] at hpq
      injection hpq with hpq1
      subst hpq1
      simp only [withCoord] at hc2
      injection hc2 with hc3
      subst hc3
      refine ⟨hd, ?_⟩
      rw [htiles, List.getElem?_set_eq_of_lt _ hDlt]
    · rw [List.getElem?_set_ne (fun hh => hi hh.symm)] at hpq
      obtain ⟨hin, htl⟩ := hPC i hilt pq hpq c2 hc2
      refine ⟨hin, ?_⟩
      have hne1 : toIdx c2 ≠ toIdx dst := by
        intro hh
        rw [hh, hD] at htl
        cases htl
      rw [htiles, List.getElem?_set_ne (fun hh => hne1 hh.symm)]
      exact htl
  · intro t htlt o hto i hoi
    subst hoi
    rw [htiles] at hto
    by_cases ht : t = toIdx dst
    · subst ht
      rw [List.getElem?_set_eq_of_lt _ hDlt] at hto
      injection hto with hto1
      injection hto1 with hto2
      subst hto2
      constructor
      · rw [hpieces]
        simp only [List.length_set]
        exact hplt
      · intro pq hpq
        rw [hpieces, List.getElem?_set_eq_of_lt _ hplt] at hpq
        injection hpq with hpq1
        subst hpq1
        simp only [withCoord]
        rw [coordOfIdx_toIdx dst hd]
    · rw [List.getElem?_set_ne (fun hh => ht hh.symm)] at hto
      have ht64 : t < 64 := by
        rw [← hlen]
        exact lt_of_getElem?_some hto
      obtain ⟨hilt, hcl⟩ := hTC t ht64 (some i) hto i rfl
      have hipid : i ≠ pid := by
        intro hh
        subst hh
        have := hcl p hp
        rw [hpc] at this
        cases this
      constructor
      · rw [hpieces]
        simp only [List.length_set]
        exact hilt
      · intro pq hpq
        rw [hpieces, List.getElem?_set_ne (fun hh => hipid hh.symm)] at hpq
        exact hcl pq hpq

/-- Consistency is preserved by placing a not-in-play piece on an occupied
tile (capturing the occupant). -/
theorem consistent_E (b : ChessBoard) (pid qid : Nat) (dst : Coord) (p q : ChessPiece)
    (hC : Consistent b) (hd : inB dst)
    (hp : b.pieces[pid]? = some p) (hpc : p.coord = none)
    (hq : b.pieces[qid]? = some q)
    (hD : b.tiles[toIdx dst]? = some (some qid)) (hqp : qid ≠ pid) :
    Consistent (setCoordOf (setOcc (setCoordOf b qid none) (toIdx dst) (some pid))
      pid (some dst)) := by
  obtain ⟨hlen, hPC, hTC⟩ := hC
  have hplt : pid < b.pieces.length := lt_of_getElem?_some hp
  have hqlt : qid < b.pieces.length := lt_of_getElem?_some hq
  have hDlt : toIdx dst < b.tiles.length := lt_of_getElem?_some hD
  have hD64 : toIdx dst < 64 := by rw [← hlen]; exact hDlt
  have hqcoord : q.coord = some (coordOfIdx (toIdx dst)) := by
    obtain ⟨h1, h2⟩ := hTC (toIdx dst) hD64 (some qid) hD qid rfl
    exact h2 q hq
  have hpieces : (setCoordOf (setOcc (setCoordOf b qid none) (toIdx dst) (some pid))
      pid (some dst)).pieces =
      (b.pieces.set qid (withCoord q none)).set pid (withCoord p (some dst)) := by
    simp only [setCoordOf, setOcc]
    rw [getD_eq_of_getElem? hq]
    have h2 : (b.pieces.set qid (withCoord q none)).getD pid default = p := by
      apply getD_eq_of_getElem?
      rw [List.getElem?_set_ne hqp]
      exact hp
    rw [h2]
  have htiles : (setCoordOf (setOcc (setCoordOf b qid none) (toIdx dst) (some pid))
      pid (some dst)).tiles = b.tiles.set (toIdx dst) (some pid) := rfl
  refine ⟨?_, ?_, ?_⟩
  · rw [htiles]
    simp only [List.length_set]
    exact hlen
  · intro i hilt
    rw [hpieces] at hilt
    simp only [List.length_set] at hilt
    intro pq hpq c2 hc2
    rw [hpieces] at hpq
    by_cases hi : i = pid
    · subst hi
      rw [List.getElem?_set_eq_of_lt] at hpq
      · injection hpq with hpq1
        subst hpq1
        simp only [withCoord] at hc2
        injection hc2 with hc3
        subst hc3
        refine ⟨hd, ?_⟩
        rw [htiles, List.getElem?_set_eq_of_lt _ hDlt]
      · simp only [List.length_set]
        exact hplt
    · rw [List.getElem?_set_ne (fun hh => hi hh.symm)] at hpq
      by_cases hiq : i = qid
      · subst hiq
        rw [List.getElem?_set_eq_of_lt _ hqlt] at hpq
        injection hpq with hpq1
        subst hpq1
        simp only [withCoord] at hc2
        cases hc2
      · rw [List.getElem?_set_ne (fun hh => hiq hh.symm)] at hpq
        obtain ⟨hin, htl⟩ := hPC i hilt pq hpq c2 hc2
        refine ⟨hin, ?_⟩
        have hne1 : toIdx c2 ≠ toIdx dst := by
          intro hh
          rw [hh, hD] at htl
          injection htl with h1
          injection h1 with h2
          exact hiq h2.symm
        rw [htiles, List.getElem?_set_ne (fun hh => hne1 hh.symm)]
        exact htl
  · intro t htlt o hto i hoi
    subst hoi
    rw [htiles] at hto
    by_cases ht : t = toIdx dst
    · subst ht
      rw [List.getElem?_set_eq_of_lt _ hDlt] at hto
      injection hto with hto1
      injection hto1 with hto2
      subst hto2
      constructor
      · rw [hpieces]
        simp only [List.length_set]
        exact hplt
      · intro pq hpq
        rw [hpieces, List.getElem?_set_eq_of_lt] at hpq
        · injection hpq with hpq1
          subst hpq1
          simp only [withCoord]
          rw [coordOfIdx_toIdx dst hd]
        · simp only [List.length_set]
          exact hplt
    · rw [List.getElem?_set_ne (fun hh => ht hh.symm)] at hto
      have ht64 : t < 64 := by
        rw [← hlen]
        exact lt_of_getElem?_some hto
      obtain ⟨hilt, hcl⟩ := hTC t ht64 (some i) hto i rfl
      have hipid : i ≠ pid := by
        intro hh
        subst hh
        have := hcl p hp
        rw [hpc] at this
        cases this
      have hiqid : i ≠ qid := by
        intro hh
        subst hh
        have := hcl q hq
        rw [hqcoord] at this
        injection this with hh2
        apply ht
        rw [← toIdx_coordOfIdx t ht64, ← hh2, toIdx_coordOfIdx (toIdx dst) hD64]
      constructor
      · rw [hpieces]
        simp only [List.length_set]
        exact hilt
      · intro pq hpq
        rw [hpieces, List.getElem?_set_ne (fun hh => hipid hh.symm),
          List.getElem?_set_ne (fun hh => hiqid hh.symm)] at hpq
        exact hcl pq hpq

/-- Undoing a self-move (source = destination, the piece captured "itself")
restores the game exactly. -/
theorem undo_after_self (b : ChessBoard) (pid : Nat) (c : Coord) (p : ChessPiece)
    (stack : List (Coord × Coord × Option Nat))
    (hc : inB c) (hp : b.pieces[pid]? = some p) (hpc : p.coord = some c)
    (hD : b.tiles[toIdx c]? = some (some pid)) :
    cmd_undo { b := b, moves_stack := (c, c, some pid) :: stack } =
      some (0, { b := b, moves_stack := stack }) := by
  unfold cmd_undo
  simp only
  rw [tileIdxOf_inB c hc]
  simp only [Option.bind_eq_bind, Option.some_bind]
  rw [hD]
  simp only [Option.some_bind]
  rw [spc_self b pid c p hc hp hpc hD]
  simp only [Option.some_bind]
  rw [spc_self b pid c p hc hp hpc hD]
  simp only [Option.some_bind, Option.pure_def]

/-- Undoing a non-capturing move restores the game exactly. -/
theorem undo_after_A (b : ChessBoard) (pid : Nat) (src dst : Coord) (p : ChessPiece)
    (stack : List (Coord × Coord × Option Nat))
    (hs : inB src) (hd : inB dst)
    (hp : b.pieces[pid]? = some p) (hpc : p.coord = some src)
    (hS : b.tiles[toIdx src]? = some (some pid))
    (hD : b.tiles[toIdx dst]? = some none)
    (hlen : b.tiles.length = 64) :
    cmd_undo { b := setCoordOf (setOcc (setOcc b (toIdx src) none) (toIdx dst) (some pid))
                 pid (some dst),
               moves_stack := (src, dst, none) :: stack } =
      some (0, { b := b, moves_stack := stack }) := by
  have hplt : pid < b.pieces.length := lt_of_getElem?_some hp
  have hSlt : toIdx src < b.tiles.length := lt_of_getElem?_some hS
  have hDlt : toIdx dst < b.tiles.length := lt_of_getElem?_some hD
  have hSD : toIdx src ≠ toIdx dst := by
    intro hh
    rw [hh, hD] at hS
    cases hS
  set bA : ChessBoard :=
    setCoordOf (setOcc (setOcc b (toIdx src) none) (toIdx dst) (some pid)) pid (some dst)
    with hbA
  have hApieces : bA.pieces = b.pieces.set pid (withCoord p (some dst)) := by
    rw [hbA]
    simp only [setCoordOf, setOcc]
    rw [getD_eq_of_getElem? hp]
  have hAtiles : bA.tiles = (b.tiles.set (toIdx src) none).set (toIdx dst) (some pid) := rfl
  have hpA : bA.pieces[pid]? = some (withCoord p (some dst)) := by
    rw [hApieces]
    exact List.getElem?_set_eq_of_lt _ hplt
  have htDA : bA.tiles[toIdx dst]? = some (some pid) := by
    rw [hAtiles]
    rw [List.getElem?_set_eq_of_lt]
    simp only [List.length_set]
    exact hDlt
  have htSA : bA.tiles[toIdx src]? = some none := by
    rw [hAtiles, List.getElem?_set_ne hSD.symm, List.getElem?_set_eq_of_lt _ hSlt]
  have hlenA : bA.tiles.length = 64 := by
    rw [hAtiles]
    simp only [List.length_set]
    exact hlen
  unfold cmd_undo
  simp only
  rw [tileIdxOf_inB dst hd]
  simp only [Option.bind_eq_bind, Option.some_bind]
  rw [htDA]
  simp only [Option.some_bind]
  rw [spc_char_A bA pid dst src (withCoord p (some dst)) hd hs hpA rfl htSA hlenA]
  simp only [Option.some_bind, Option.pure_def]
  have hXb : setCoordOf (setOcc (setOcc bA (toIdx dst) none) (toIdx src) (some pid))
      pid (some src) = b := by
    apply board_eq_of
    · simp only [setCoordOf, setOcc]
      rw [getD_eq_of_getElem? hpA, hApieces, withCoord_cancel, List.set_set,
        withCoord_eq_self p (some src) hpc, list_set_self _ _ _ hp]
    · simp only [setCoordOf, setOcc]
      rw [hAtiles]
      apply list_ext_g
      intro u
      by_cases hu : u = toIdx src
      · subst hu
        rw [List.getElem?_set_eq_of_lt, hS]
        simp only [List.length_set]
        exact hSlt
      · rw [List.getElem?_set_ne (fun hh => hu hh.symm)]
        by_cases hu2 : u = toIdx dst
        · subst hu2
          rw [List.getElem?_set_eq_of_lt, hD]
          simp only [List.length_set]
          exact hDlt
        · rw [List.getElem?_set_ne (fun hh => hu2 hh.symm),
            List.getElem?_set_ne (fun hh => hu2 hh.symm),
            List.getElem?_set_ne (fun hh => hu hh.symm)]
  rw [hXb]

/-- Undoing a capturing move restores the game exactly (the captured piece is
placed back at the destination). -/
theorem undo_after_B (b : ChessBoard) (pid qid : Nat) (src dst : Coord) (p q : ChessPiece)
    (stack : List (Coord × Coord × Option Nat))
    (hs : inB src) (hd : inB dst)
    (hp : b.pieces[pid]? = some p) (hpc : p.coord = some src)
    (hq : b.pieces[qid]? = some q) (hqc : q.coord = some dst)
    (hS : b.tiles[toIdx src]? = some (some pid))
    (hD : b.tiles[toIdx dst]? = some (some qid)) (hqp : qid ≠ pid)
    (hlen : b.tiles.length = 64) :
    cmd_undo { b := setCoordOf (setOcc (setOcc (setCoordOf b qid none) (toIdx src) none)
                 (toIdx dst) (some pid)) pid (some dst),
               moves_stack := (src, dst, some qid) :: stack } =
      some (0, { b := b, moves_stack := stack }) := by
  have hplt : pid < b.pieces.length := lt_of_getElem?_some hp
  have hqlt : qid < b.pieces.length := lt_of_getElem?_some hq
  have hSlt : toIdx src < b.tiles.length := lt_of_getElem?_some hS
  have hDlt : toIdx dst < b.tiles.length := lt_of_getElem?_some hD
  have hSD : toIdx src ≠ toIdx dst := by
    intro hh
    rw [hh, hD] at hS
    injection hS with h1
    injection h1 with h2
    exact hqp h2
  set bB : ChessBoard :=
    setCoordOf (setOcc (setOcc (setCoordOf b qid none) (toIdx src) none)
      (toIdx dst) (some pid)) pid (some dst) with hbB
  have hBpieces : bB.pieces =
      (b.pieces.set qid (withCoord q none)).set pid (withCoord p (some dst)) := by
    rw [hbB]
    simp only [setCoordOf, setOcc]
    rw [getD_eq_of_getElem? hq]
    have h2 : (b.pieces.set qid (withCoord q none)).getD pid default = p := by
      apply getD_eq_of_getElem?
      rw [List.getElem?_set_ne hqp]
      exact hp
    rw [h2]
  have hBtiles : bB.tiles = (b.tiles.set (toIdx src) none).set (toIdx dst) (some pid) := rfl
  have hpB : bB.pieces[pid]? = some (withCoord p (some dst)) := by
    rw [hBpieces]
    rw [List.getElem?_set_eq_of_lt]
    simp only [List.length_set]
    exact hplt
  have hqB : bB.pieces[qid]? = some (withCoord q none) := by
    rw [hBpieces, List.getElem?_set_ne hqp.symm, List.getElem?_set_eq_of_lt _ hqlt]
  have htDB : bB.tiles[toIdx dst]? = some (some pid) := by
    rw [hBtiles]
    rw [List.getElem?_set_eq_of_lt]
    simp only [List.length_set]
    exact hDlt
  have htSB : bB.tiles[toIdx src]? = some none := by
    rw [hBtiles, List.getElem?_set_ne hSD.symm, List.getElem?_set_eq_of_lt _ hSlt]
  have hlenB : bB.tiles.length = 64 := by
    rw [hBtiles]
    simp only [List.length_set]
    exact hlen
  unfold cmd_undo
  simp only
  rw [tileIdxOf_inB dst hd]
  simp only [Option.bind_eq_bind, Option.some_bind]
  rw [htDB]
  simp only [Option.some_bind]
  rw [spc_char_A bB pid dst src (withCoord p (some dst)) hd hs hpB rfl htSB hlenB]
  simp only [Option.some_bind]
  set b2 : ChessBoard :=
    setCoordOf (setOcc (setOcc bB (toIdx dst) none) (toIdx src) (some pid)) pid (some src)
    with hb2
  have hb2pieces : b2.pieces = (b.pieces.set qid (withCoord q none)).set pid p := by
    rw [hb2]
    simp only [setCoordOf, setOcc]
    rw [getD_eq_of_getElem? hpB, hBpieces, withCoord_cancel, List.set_set,
      withCoord_eq_self p (some src) hpc]
  have hb2tiles : b2.tiles = (bB.tiles.set (toIdx dst) none).set (toIdx src) (some pid) := rfl
  have hq2 : b2.pieces[qid]? = some (withCoord q none) := by
    rw [hb2pieces, List.getElem?_set_ne hqp.symm, List.getElem?_set_eq_of_lt _ hqlt]
  have htD2 : b2.tiles[toIdx dst]? = some none := by
    rw [hb2tiles, List.getElem?_set_ne hSD, List.getElem?_set_eq_of_lt]
    rw [hBtiles]
    simp only [List.length_set]
    exact hDlt
  rw [spc_char_D b2 qid dst (withCoord q none) hd hq2 rfl htD2]
  simp only [Option.some_bind, Option.pure_def]
  have hXb : setCoordOf (setOcc b2 (toIdx dst) (some qid)) qid (some dst) = b := by
    apply board_eq_of
    · simp only [setCoordOf, setOcc]
      rw [getD_eq_of_getElem? hq2, hb2pieces, withCoord_cancel,
        withCoord_eq_self q (some dst) hqc]
      apply list_ext_g
      intro u
      by_cases hu : u = qid
      · subst hu
        rw [List.getElem?_set_eq_of_lt, hq]
        simp only [List.length_set]
        exact hqlt
      · rw [List.getElem?_set_ne (fun hh => hu hh.symm)]
        by_cases hu2 : u = pid
        · subst hu2
          rw [List.getElem?_set_eq_of_lt, hp]
          simp only [List.length_set]
          exact hplt
        · rw [List.getElem?_set_ne (fun hh => hu2 hh.symm),
            List.getElem?_set_ne (fun hh => hu hh.symm)]
    · simp only [setCoordOf, setOcc]
      rw [hb2tiles, hBtiles]
      apply list_ext_g
      intro u
      by_cases hu : u = toIdx dst
      · subst hu
        rw [List.getElem?_set_eq_of_lt, hD]
        simp only [List.length_set]
        exact hDlt
      · rw [List.getElem?_set_ne (fun hh => hu hh.symm)]
        by_cases hu2 : u = toIdx src
        · subst hu2
          rw [List.getElem?_set_eq_of_lt, hS]
          simp only [List.length_set]
          exact hSlt
        · rw [List.getElem?_set_ne (fun hh => hu2 hh.symm),
            List.getElem?_set_ne (fun hh => hu hh.symm),
            List.getElem?_set_ne (fun hh => hu hh.symm),
            List.getElem?_set_ne (fun hh => hu2 hh.symm)]
  rw [hXb]

/-- Master characterization of `cmd_move_coords` from a consistent state:
either the source tile is empty (`-1`, game untouched) or the move succeeds
(`0`), pushes its record, keeps the board consistent, and is inverted exactly
by `cmd_undo`. -/
theorem move_char (g : ChessGame) (src dst : Coord) (r : Int) (g' : ChessGame)
    (hC : Consistent g.b) (hs : inB src) (hd : inB dst)
    (h : cmd_move_coords g src dst = some (r, g')) :
    (r = -1 ∧ g' = g) ∨
    (r = 0 ∧ Consistent g'.b ∧
      (∃ cap, g'.moves_stack = (src, dst, cap) :: g.moves_stack) ∧
      cmd_undo g' = some (0, g)) := by
  obtain ⟨hlen, hPC, hTC⟩ := hC
  unfold cmd_move_coords at h
  rw [tileIdxOf_inB src hs] at h
  simp only [Option.bind_eq_bind, Option.some_bind] at h
  obtain ⟨occS, hS⟩ := getElem?_isSome_of_lt g.b.tiles (toIdx src)
    (by rw [hlen]; exact toIdx_lt src hs)
  rw [hS] at h
  simp only [Option.some_bind] at h
  cases occS with
  | none =>
    simp only [Option.pure_def] at h
    injection h with h1
    injection h1 with hr hg
    left
    exact ⟨hr.symm, hg.symm⟩
  | some pid =>
    have hS64 : toIdx src < 64 := toIdx_lt src hs
    have hD64 : toIdx dst < 64 := toIdx_lt dst hd
    obtain ⟨hplt, hcl⟩ := hTC (toIdx src) hS64 (some pid) hS pid rfl
    obtain ⟨p, hp⟩ := getElem?_isSome_of_lt g.b.pieces pid hplt
    have hpc : p.coord = some src := by
      have h2 := hcl p hp
      rw [coordOfIdx_toIdx src hs] at h2
      exact h2
    rw [tileIdxOf_inB dst hd] at h
    simp only [Option.some_bind] at h
    obtain ⟨occD, hD⟩ := getElem?_isSome_of_lt g.b.tiles (toIdx dst)
      (by rw [hlen]; exact toIdx_lt dst hd)
    rw [hD] at h
    simp only [Option.some_bind] at h
    cases occD with
    | none =>
      rw [spc_char_A g.b pid src dst p hs hd hp hpc hD hlen] at h
      simp only [Option.some_bind, Option.pure_def] at h
      injection h with h1
      injection h1 with hr hg
      right
      refine ⟨hr.symm, ?_, ?_, ?_⟩
      · rw [← hg]
        exact consistent_A g.b pid src dst p ⟨hlen, hPC, hTC⟩ hs hd hp hpc hS hD
      · rw [← hg]
        exact ⟨none, rfl⟩
      · rw [← hg]
        exact undo_after_A g.b pid src dst p g.moves_stack hs hd hp hpc hS hD hlen
    | some qid =>
      obtain ⟨hqlt, hclD⟩ := hTC (toIdx dst) hD64 (some qid) hD qid rfl
      obtain ⟨q, hq⟩ := getElem?_isSome_of_lt g.b.pieces qid hqlt
      have hqc : q.coord = some dst := by
        have h2 := hclD q hq
        rw [coordOfIdx_toIdx dst hd] at h2
        exact h2
      by_cases hqp : qid = pid
      · subst hqp
        have hsd : src = dst := by
          have h2 := hclD p hp
          rw [hpc, coordOfIdx_toIdx dst hd] at h2
          injection h2
        subst hsd
        rw [spc_self g.b qid src p hs hp hpc hD] at h
        simp only [Option.some_bind, Option.pure_def] at h
        injection h with h1
        injection h1 with hr hg
        right
        refine ⟨hr.symm, ?_, ?_, ?_⟩
        · rw [← hg]
          exact ⟨hlen, hPC, hTC⟩
        · rw [← hg]
          exact ⟨some qid, rfl⟩
        · rw [← hg]
          exact undo_after_self g.b qid src p g.moves_stack hs hp hpc hD
      · rw [spc_char_B g.b pid qid src dst p hs hd hp hpc hD hqp hlen] at h
        simp only [Option.some_bind, Option.pure_def] at h
        injection h with h1
        injection h1 with hr hg
        right
        refine ⟨hr.symm, ?_, ?_, ?_⟩
        · rw [← hg]
          exact consistent_B g.b pid qid src dst p q ⟨hlen, hPC, hTC⟩ hs hd hp hpc hq hS hD hqp
        · rw [← hg]
          exact ⟨some qid, rfl⟩
        · rw [← hg]
          exact undo_after_B g.b pid qid src dst p q g.moves_stack hs hd hp hpc hq hqc
            hS hD hqp hlen

/-- Placing a valid piece at an in-bounds coordinate with `set_piece_coord`
preserves consistency whenever it returns. -/
theorem spc_preserves (b : ChessBoard) (pid : Nat) (c : Coord) (b' : ChessBoard)
    (hC : Consistent b) (hpid : pid < b.pieces.length) (hc : inB c)
    (h : set_piece_coord b pid c = some b') : Consistent b' := by
  obtain ⟨hlen, hPC, hTC⟩ := hC
  obtain ⟨p, hp⟩ := getElem?_isSome_of_lt b.pieces pid hpid
  have hD64 : toIdx c < 64 := toIdx_lt c hc
  obtain ⟨occD, hD⟩ := getElem?_isSome_of_lt b.tiles (toIdx c) (by rw [hlen]; exact hD64)
  cases hcoord : p.coord with
  | some src =>
    obtain ⟨hsB, hS⟩ := hPC pid hpid p hp src hcoord
    cases occD with
    | none =>
      rw [spc_char_A b pid src c p hsB hc hp hcoord hD hlen] at h
      injection h with h1
      rw [← h1]
      exact consistent_A b pid src c p ⟨hlen, hPC, hTC⟩ hsB hc hp hcoord hS hD
    | some qid =>
      by_cases hqp : qid = pid
      · subst hqp
        obtain ⟨_, hclD⟩ := hTC (toIdx c) hD64 (some qid) hD qid rfl
        have hcc : src = c := by
          have h2 := hclD p hp
          rw [hcoord, coordOfIdx_toIdx c hc] at h2
          injection h2
        subst hcc
        rw [spc_self b qid src p hc hp hcoord hD] at h
        injection h with h1
        rw [← h1]
        exact ⟨hlen, hPC, hTC⟩
      · rw [spc_char_B b pid qid src c p hsB hc hp hcoord hD hqp hlen] at h
        obtain ⟨hqlt, _⟩ := hTC (toIdx c) hD64 (some qid) hD qid rfl
        obtain ⟨q, hq⟩ := getElem?_isSome_of_lt b.pieces qid hqlt
        injection h with h1
        rw [← h1]
        exact consistent_B b pid qid src c p q ⟨hlen, hPC, hTC⟩ hsB hc hp hcoord hq hS hD hqp
  | none =>
    cases occD with
    | none =>
      rw [spc_char_D b pid c p hc hp hcoord hD] at h
      injection h with h1
      rw [← h1]
      exact consistent_D b pid c p ⟨hlen, hPC, hTC⟩ hc hp hcoord hD
    | some qid =>
      have hqp : qid ≠ pid := by
        intro hh
        subst hh
        obtain ⟨_, hclD⟩ := hTC (toIdx c) hD64 (some qid) hD qid rfl
        have h2 := hclD p hp
        rw [hcoord] at h2
        cases h2
      rw [spc_char_E b pid qid c p hc hp hcoord hD hqp] at h
      obtain ⟨hqlt, _⟩ := hTC (toIdx c) hD64 (some qid) hD qid rfl
      obtain ⟨q, hq⟩ := getElem?_isSome_of_lt b.pieces qid hqlt
      injection h with h1
      rw [← h1]
      exact consistent_E b pid qid c p q ⟨hlen, hPC, hTC⟩ hc hp hcoord hq hD hqp

theorem goodStack_consistent (g : ChessGame) (h : GoodStack g) : Consistent g.b := by
  induction h with
  | base b hb => exact hb
  | step g src dst g' hg hs hd hmv ih =>
    rcases move_char g src dst 0 g' ih hs hd hmv with ⟨h1, _⟩ | ⟨_, h2, _, _⟩
    · exact absurd h1 (by decide)
    · exact h2

theorem goodStack_undo_of_cons (g : ChessGame) (h : GoodStack g)
    (m : Coord × Coord × Option Nat) (rest : List (Coord × Coord × Option Nat))
    (hst : g.moves_stack = m :: rest) :
    ∃ g0, cmd_undo g = some (0, g0) ∧ GoodStack g0 ∧ g0.moves_stack = rest := by
  cases h with
  | base b hb =>
    simp only at hst
    exact List.noConfusion hst
  | step g1 src dst g2 hg1 hs hd hmv =>
    have hC := goodStack_consistent g1 hg1
    rcases move_char g1 src dst 0 g hC hs hd hmv with ⟨h1, _⟩ | ⟨_, hcons, hcap, hundo⟩
    · exact absurd h1 (by decide)
    · obtain ⟨cap, hstack⟩ := hcap
      refine ⟨g1, hundo, hg1, ?_⟩
      rw [hstack] at hst
      injection hst

theorem reachable_goodStack (g : ChessGame) (h : Reachable g) : GoodStack g := by
  induction h with
  | newgame => exact GoodStack.base B0 consistent_B0
  | move g src dst r g' hg hs hd hmv ih =>
    rcases move_char g src dst r g' (goodStack_consistent g ih) hs hd hmv with
      ⟨hr, hgg⟩ | ⟨hr, _, _, _⟩
    · rw [hgg]
      exact ih
    · subst hr
      exact GoodStack.step g src dst g' ih hs hd hmv
  | undo g r g' hg hundo ih =>
    cases hst : g.moves_stack with
    | nil =>
      have hnil : cmd_undo g = some (-1, g) := by
        unfold cmd_undo
        rw [hst]
      rw [hnil] at hundo
      injection hundo with h1
      injection h1 with hr hg2
      rw [← hg2]
      exact ih
    | cons m rest =>
      obtain ⟨g0, hu, hg0, _⟩ := goodStack_undo_of_cons g ih m rest hst
      rw [hu] at hundo
      injection hundo with h1
      injection h1 with hr hg2
      rw [← hg2]
      exact hg0

theorem undo1_of_cmd (g g0 : ChessGame) (h : cmd_undo g = some (0, g0)) :
    undo1 g = some g0 := by
  unfold undo1
  rw [h]
  rfl

theorem undoN_succ_right (n : Nat) : ∀ g : ChessGame,
    undoN (n + 1) g = (undoN n g).bind undo1 := by
  induction n with
  | zero =>
    intro g
    have hr : (undoN 0 g).bind undo1 = undo1 g := rfl
    rw [hr]
    show (undo1 g).bind (undoN 0) = undo1 g
    cases undo1 g with
    | none => rfl
    | some g1 => rfl
  | succ n ih =>
    intro g
    show (undo1 g).bind (undoN (n + 1)) = ((undo1 g).bind (undoN n)).bind undo1
    cases undo1 g with
    | none => rfl
    | some g1 =>
      show undoN (n + 1) g1 = (undoN n g1).bind undo1
      exact ih g1

/-- Core of the undo-restores theorem: from any `GoodStack` state, a run of
successful moves is undone exactly by the same number of undos. -/
theorem applyMoves_undo (ms : List (Coord × Coord)) :
    ∀ g g' : ChessGame, GoodStack g → (∀ m ∈ ms, inB m.1 ∧ inB m.2) →
    applyMoves g ms = some g' → undoN ms.length g' = some g := by
  induction ms with
  | nil =>
    intro g g' _ _ h
    unfold applyMoves at h
    injection h with h1
    rw [← h1]
    rfl
  | cons m ms ih =>
    intro g g' hg hin h
    unfold applyMoves at h
    cases hmv : cmd_move_coords g m.1 m.2 with
    | none =>
      rw [hmv] at h
      cases h
    | some rg =>
      obtain ⟨r, g1⟩ := rg
      rw [hmv] at h
      have hmB : inB m.1 ∧ inB m.2 := hin m (List.mem_cons_self m ms)
      rcases move_char g m.1 m.2 r g1 (goodStack_consistent g hg) hmB.1 hmB.2 hmv with
        ⟨hr, _⟩ | ⟨hr, hcons, hcap, hundo⟩
      · subst hr
        cases h
      · subst hr
        have hg1 : GoodStack g1 := GoodStack.step g m.1 m.2 g1 hg hmB.1 hmB.2 hmv
        have hin1 : ∀ x ∈ ms, inB x.1 ∧ inB x.2 := by
          intro x hx
          exact hin x (List.mem_cons_of_mem m hx)
        have hih := ih g1 g' hg1 hin1 h
        have hlen : (m :: ms).length = ms.length + 1 := rfl
        rw [hlen, undoN_succ_right ms.length g', hih]
        simp only [Option.bind_eq_bind, Option.some_bind]
        exact undo1_of_cmd g1 g hundo

theorem flc_leaf (i : Nat) (ch : Char) (hi : i < 8) (h : letters.getD i ' ' = ch) :
    (ch ∉ letters → False) ∧
    (∀ k, (some i : Option Nat) = some k → k < 8 ∧ letters.getD k ' ' = ch ∧ ch ∈ letters) := by
  have hall : ∀ j, j < 8 → letters.getD j ' ' ∈ letters := by decide
  constructor
  · intro hmem
    apply hmem
    rw [← h]
    exact hall i hi
  · intro k hk
    injection hk with hk1
    subst hk1
    refine ⟨hi, h, ?_⟩
    rw [← h]
    exact hall i hi

/-- Behaviour of the letter-search loop: it returns `none` exactly on
characters outside `"abcdefgh"`, and any returned index is the index of the
matched letter. -/
theorem findLetterIdx_char (ch : Char) :
    (ch ∉ letters → findLetterIdx ch = none) ∧
    (∀ k, findLetterIdx ch = some k → k < 8 ∧ letters.getD k ' ' = ch ∧ ch ∈ letters) := by
  unfold findLetterIdx
  rw [show List.range 8 = [0, 1, 2, 3, 4, 5, 6, 7] from rfl]
  simp only [List.foldl]
  split_ifs with h7 h6 h5 h4 h3 h2 h1 h0
  · exact flc_leaf 7 ch (by decide) h7
  · exact flc_leaf 6 ch (by decide) h6
  · exact flc_leaf 5 ch (by decide) h5
  · exact flc_leaf 4 ch (by decide) h4
  · exact flc_leaf 3 ch (by decide) h3
  · exact flc_leaf 2 ch (by decide) h2
  · exact flc_leaf 1 ch (by decide) h1
  · exact flc_leaf 0 ch (by decide) h0
  · constructor
    · intro _
      rfl
    · intro k hk
      cases hk

theorem findLetterIdx_none_iff (ch : Char) : findLetterIdx ch = none ↔ ch ∉ letters := by
  constructor
  · intro h hmem
    fin_cases hmem <;> exact absurd h (by decide)
  · exact (findLetterIdx_char ch).1

theorem ntc_nil : notation_to_coord [] = NotationResult.exn := rfl

theorem ntc_one (a : Char) : notation_to_coord [a] = NotationResult.exn := rfl

theorem ntc_long (a b c : Char) (rest : List Char) :
    notation_to_coord (a :: b :: c :: rest) = NotationResult.err := by
  unfold notation_to_coord
  rw [if_pos]
  simp only [List.length_cons]
  omega

theorem pyDecimal_isNumeric (ch : Char) (d : Nat) (h : pyDecimalVal ch = some d) :
    pyIsNumeric ch = true := by
  unfold pyIsNumeric
  rw [h]
  rfl

theorem ntc_two (a b : Char) :
    notation_to_coord [a, b] =
      if ¬ pyIsNumeric b then NotationResult.err
      else
        match pyDecimalVal b with
        | none => NotationResult.exn
        | some d =>
          match findLetterIdx a with
          | none => NotationResult.err
          | some t0 =>
            if 8 - (d : Int) < 0 ∨ 8 - (d : Int) > 7 then NotationResult.err
            else NotationResult.ok (8 - (d : Int), (t0 : Int)) := rfl

theorem ntc_ok_iff (s : List Char) (c : Coord) :
    notation_to_coord s = NotationResult.ok c ↔ OkCond s c := by
  unfold OkCond
  match s with
  | [] =>
    rw [ntc_nil]
    constructor
    · intro h
      cases h
    · intro h
      obtain ⟨a, b, k, d, hab, _⟩ := h
      cases hab
  | [a] =>
    rw [ntc_one]
    constructor
    · intro h
      cases h
    · intro h
      obtain ⟨a2, b2, k, d, hab, _⟩ := h
      cases hab
  | a :: b :: c2 :: rest =>
    rw [ntc_long]
    constructor
    · intro h
      cases h
    · intro h
      obtain ⟨a2, b2, k, d, hab, _⟩ := h
      injection hab with h1 h2
      injection h2 with h3 h4
      cases h4
  | [a, b] =>
    rw [ntc_two]
    by_cases hnum : pyIsNumeric b = true
    · rw [if_neg (by simp [hnum])]
      cases hdec : pyDecimalVal b with
      | none =>
        constructor
        · intro h
          cases h
        · intro h
          obtain ⟨a2, b2, k, d, hab, hd2, _⟩ := h
          injection hab with h1 h2
          injection h2 with h3 h4
          subst h3
          rw [hdec] at hd2
          cases hd2
      | some d0 =>
        show (match findLetterIdx a with
          | none => NotationResult.err
          | some t0 =>
            if 8 - (d0 : Int) < 0 ∨ 8 - (d0 : Int) > 7 then NotationResult.err
            else NotationResult.ok (8 - (d0 : Int), (t0 : Int))) = NotationResult.ok c ↔ _
        cases hfl : findLetterIdx a with
        | none =>
          constructor
          · intro h
            cases h
          · intro h
            obtain ⟨a2, b2, k, d, hab, hd2, hfl2, _⟩ := h
            injection hab with h1 h2
            injection h2 with h3 h4
            subst h1
            rw [hfl] at hfl2
            cases hfl2
        | some k0 =>
          show (if 8 - (d0 : Int) < 0 ∨ 8 - (d0 : Int) > 7 then NotationResult.err
            else NotationResult.ok (8 - (d0 : Int), (k0 : Int))) = NotationResult.ok c ↔ _
          by_cases hrange : 8 - (d0 : Int) < 0 ∨ 8 - (d0 : Int) > 7
          · rw [if_pos hrange]
            constructor
            · intro h
              cases h
            · intro h
              obtain ⟨a2, b2, k, d, hab, hd2, hfl2, h1d, h8d, hc⟩ := h
              injection hab with h1 h2
              injection h2 with h3 h4
              subst h1
              subst h3
              rw [hdec] at hd2
              injection hd2 with hd3
              subst hd3
              omega
          · rw [if_neg hrange]
            constructor
            · intro h
              injection h with h1
              exact ⟨a, b, k0, d0, rfl, hdec, hfl, by omega, by omega, h1.symm⟩
            · intro h
              obtain ⟨a2, b2, k, d, hab, hd2, hfl2, h1d, h8d, hc⟩ := h
              injection hab with h1 h2
              injection h2 with h3 h4
              subst h1
              subst h3
              rw [hdec] at hd2
              injection hd2 with hd3
              subst hd3
              rw [hfl] at hfl2
              injection hfl2 with h5
              subst h5
              rw [hc]
    · rw [if_pos (by simp [hnum])]
      constructor
      · intro h
        cases h
      · intro h
        obtain ⟨a2, b2, k, d, hab, hd2, _⟩ := h
        injection hab with h1 h2
        injection h2 with h3 h4
        subst h3
        exact absurd (pyDecimal_isNumeric b d hd2) hnum

theorem ntc_exn_iff (s : List Char) :
    notation_to_coord s = NotationResult.exn ↔ ExnCond s := by
  unfold ExnCond
  match s with
  | [] =>
    rw [ntc_nil]
    constructor
    · intro _
      left
      simp only [List.length_nil]
      omega
    · intro _
      rfl
  | [a] =>
    rw [ntc_one]
    constructor
    · intro _
      left
      simp only [List.length_cons, List.length_nil]
      omega
    · intro _
      rfl
  | a :: b :: c2 :: rest =>
    rw [ntc_long]
    constructor
    · intro h
      cases h
    · intro h
      rcases h with h | ⟨h, _⟩
      · simp only [List.length_cons] at h
        omega
      · simp only [List.length_cons] at h
        omega
  | [a, b] =>
    rw [ntc_two]
    have hget1 : ([a, b].getD 1 ' ') = b := rfl
    rw [hget1]
    by_cases hnum : pyIsNumeric b = true
    · rw [if_neg (by simp [hnum])]
      cases hdec : pyDecimalVal b with
      | none =>
        constructor
        · intro _
          right
          exact ⟨rfl, hnum, rfl⟩
        · intro _
          rfl
      | some d0 =>
        show (match findLetterIdx a with
          | none => NotationResult.err
          | some t0 =>
            if 8 - (d0 : Int) < 0 ∨ 8 - (d0 : Int) > 7 then NotationResult.err
            else NotationResult.ok (8 - (d0 : Int), (t0 : Int))) = NotationResult.exn ↔ _
        constructor
        · intro h
          exfalso
          revert h
          cases hfl : findLetterIdx a with
          | none =>
            intro h
            cases h
          | some k0 =>
            show (if 8 - (d0 : Int) < 0 ∨ 8 - (d0 : Int) > 7 then NotationResult.err
              else NotationResult.ok (8 - (d0 : Int), (k0 : Int))) = NotationResult.exn → False
            by_cases hrange : 8 - (d0 : Int) < 0 ∨ 8 - (d0 : Int) > 7
            · rw [if_pos hrange]
              intro h
              cases h
            · rw [if_neg hrange]
              intro h
              cases h
        · intro h
          rcases h with h | ⟨_, _, hdn⟩
          · simp only [List.length_cons] at h
            omega
          · cases hdn
    · rw [if_pos (by simp [hnum])]
      constructor
      · intro h
        cases h
      · intro h
        rcases h with h | ⟨_, hn, _⟩
        · simp only [List.length_cons] at h
          omega
        · exact absurd hn hnum

theorem ntc_err_iff (s : List Char) :
    notation_to_coord s = NotationResult.err ↔ ErrCond s := by
  unfold ErrCond
  match s with
  | [] =>
    rw [ntc_nil]
    constructor
    · intro h
      cases h
    · intro h
      rcases h with h | ⟨h, _⟩
      · simp at h
      · simp at h
  | [a] =>
    rw [ntc_one]
    constructor
    · intro h
      cases h
    · intro h
      rcases h with h | ⟨h, _⟩
      · simp at h
      · simp at h
  | a :: b :: c2 :: rest =>
    rw [ntc_long]
    constructor
    · intro _
      left
      simp only [List.length_cons]
      omega
    · intro _
      rfl
  | [a, b] =>
    rw [ntc_two]
    have hget0 : ([a, b].getD 0 ' ') = a := rfl
    have hget1 : ([a, b].getD 1 ' ') = b := rfl
    rw [hget0, hget1]
    by_cases hnum : pyIsNumeric b = true
    · rw [if_neg (by simp [hnum])]
      cases hdec : pyDecimalVal b with
      | none =>
        constructor
        · intro h
          cases h
        · intro h
          rcases h with h | ⟨_, h⟩
          · simp at h
          · rcases h with h | ⟨d, hd2, _⟩
            · rw [hnum] at h
              cases h
            · cases hd2
      | some d0 =>
        show (match findLetterIdx a with
          | none => NotationResult.err
          | some t0 =>
            if 8 - (d0 : Int) < 0 ∨ 8 - (d0 : Int) > 7 then NotationResult.err
            else NotationResult.ok (8 - (d0 : Int), (t0 : Int))) = NotationResult.err ↔ _
        cases hfl : findLetterIdx a with
        | none =>
          constructor
          · intro _
            right
            refine ⟨rfl, ?_⟩
            right
            refine ⟨d0, rfl, ?_⟩
            left
            exact (findLetterIdx_none_iff a).mp hfl
          · intro _
            rfl
        | some k0 =>
          show (if 8 - (d0 : Int) < 0 ∨ 8 - (d0 : Int) > 7 then NotationResult.err
            else NotationResult.ok (8 - (d0 : Int), (k0 : Int))) = NotationResult.err ↔ _
          have hmem : a ∈ letters := ((findLetterIdx_char a).2 k0 hfl).2.2
          by_cases hrange : 8 - (d0 : Int) < 0 ∨ 8 - (d0 : Int) > 7
          · rw [if_pos hrange]
            constructor
            · intro _
              right
              refine ⟨rfl, ?_⟩
              right
              refine ⟨d0, rfl, ?_⟩
              right
              omega
            · intro _
              rfl
          · rw [if_neg hrange]
            constructor
            · intro h
              cases h
            · intro h
              rcases h with h | ⟨_, h⟩
              · simp at h
              · rcases h with h | ⟨d, hd2, h⟩
                · rw [hnum] at h
                  cases h
                · injection hd2 with hd3
                  subst hd3
                  rcases h with h | h | h
                  · exact absurd hmem h
                  · omega
                  · omega
    · rw [if_pos (by simp [hnum])]
      constructor
      · intro _
        right
        refine ⟨rfl, ?_⟩
        left
        simp [hnum]
      · intro _
        rfl

theorem pyIdx8_none_iff (x : Int) : pyIdx 8 x = none ↔ ¬(-8 ≤ x ∧ x < 8) := by
  unfold pyIdx
  split_ifs with h1 h2
  · simp only [reduceCtorEq, false_iff, not_not]
    push_cast at h1
    omega
  · simp only [reduceCtorEq, false_iff, not_not]
    push_cast at h2
    omega
  · simp only [true_iff]
    push_cast at h1 h2
    omega

theorem pyIdx8_lt (x : Int) (i : Nat) (h : pyIdx 8 x = some i) : i < 8 := by
  unfold pyIdx at h
  split_ifs at h with h1 h2
  · injection h with h3
    push_cast at h1
    omega
  · injection h with h3
    push_cast at h2
    omega

theorem pyIdx8_pos (x : Int) (h0 : 0 ≤ x) (h8 : x < 8) : pyIdx 8 x = some x.toNat := by
  unfold pyIdx
  rw [if_pos ⟨h0, by exact_mod_cast h8⟩]

theorem get_tile_none_iff (b : ChessBoard) (c : Coord) (hlen : b.tiles.length = 64) :
    get_tile b c = none ↔ ¬ pyInRange c := by
  unfold get_tile pyInRange
  cases hp1 : pyIdx 8 c.1 with
  | none =>
    simp only [Option.bind_eq_bind, Option.none_bind]
    rw [pyIdx8_none_iff] at hp1
    constructor
    · intro _
      omega
    · intro _
      trivial
  | some i =>
    have hi8 : i < 8 := pyIdx8_lt c.1 i hp1
    have hp1r : ¬(pyIdx 8 c.1 = none) := by rw [hp1]; intro hh; cases hh
    rw [pyIdx8_none_iff] at hp1r
    simp only [Option.bind_eq_bind, Option.some_bind]
    cases hp2 : pyIdx 8 c.2 with
    | none =>
      simp only [Option.none_bind]
      rw [pyIdx8_none_iff] at hp2
      constructor
      · intro _
        omega
      · intro _
        trivial
    | some j =>
      have hj8 : j < 8 := pyIdx8_lt c.2 j hp2
      have hp2r : ¬(pyIdx 8 c.2 = none) := by rw [hp2]; intro hh; cases hh
      rw [pyIdx8_none_iff] at hp2r
      simp only [Option.some_bind]
      obtain ⟨occ, hocc⟩ := getElem?_isSome_of_lt b.tiles (8 * i + j) (by omega)
      rw [hocc]
      simp only [Option.some_bind, Option.pure_def]
      constructor
      · intro h
        cases h
      · intro h
        omega

theorem get_tile_inB (b : ChessBoard) (c : Coord) (hlen : b.tiles.length = 64)
    (hc : inB c) :
    ∃ occ, b.tiles[toIdx c]? = some occ ∧ get_tile b c = some (c, occ) := by
  obtain ⟨h1, h2, h3, h4⟩ := hc
  obtain ⟨occ, hocc⟩ := getElem?_isSome_of_lt b.tiles (toIdx c)
    (by rw [hlen]; exact toIdx_lt c ⟨h1, h2, h3, h4⟩)
  refine ⟨occ, hocc, ?_⟩
  unfold get_tile
  rw [pyIdx8_pos c.1 h1 h2]
  simp only [Option.bind_eq_bind, Option.some_bind]
  rw [pyIdx8_pos c.2 h3 h4]
  simp only [Option.some_bind]
  have ht : (8 * c.1.toNat + c.2.toNat) = toIdx c := rfl
  rw [ht, hocc]
  simp only [Option.some_bind, Option.pure_def, Option.some.injEq]
  rw [Int.toNat_of_nonneg h1, Int.toNat_of_nonneg h3]

theorem map_moved_setCoordOf (b : ChessBoard) (pid : Nat) (c : Option Coord) :
    (setCoordOf b pid c).pieces.map ChessPiece.moved = b.pieces.map ChessPiece.moved := by
  simp only [setCoordOf]
  apply list_ext_g
  intro i
  rw [List.getElem?_map, List.getElem?_map]
  by_cases hi : i = pid
  · subst hi
    by_cases hlt : i < b.pieces.length
    · obtain ⟨p0, hp0⟩ := getElem?_isSome_of_lt b.pieces i hlt
      rw [List.getElem?_set_eq_of_lt _ hlt, hp0, getD_eq_of_getElem? hp0]
      rfl
    · push_neg at hlt
      rw [List.getElem?_eq_none (by simpa using hlt), List.getElem?_eq_none hlt]
  · rw [List.getElem?_set_ne (fun hh => hi hh.symm)]

/-- No call to `set_piece_coord` changes any piece's `_moved` flag (no code in
the source ever assigns `_moved` after `__init__`). -/
theorem spc_moved (b : ChessBoard) (pid : Nat) (c : Coord) (b' : ChessBoard)
    (h : set_piece_coord b pid c = some b') :
    b'.pieces.map ChessPiece.moved = b.pieces.map ChessPiece.moved := by
  unfold set_piece_coord at h
  cases hnt : tileIdxOf c with
  | none =>
    rw [hnt] at h
    cases h
  | some nt =>
    rw [hnt] at h
    simp only [Option.bind_eq_bind, Option.some_bind] at h
    cases hocc : b.tiles[nt]? with
    | none =>
      rw [hocc] at h
      cases h
    | some occN =>
      rw [hocc] at h
      simp only [Option.some_bind] at h
      cases occN with
      | none =>
        rw [show (match (none : Option Nat) with
          | some qid => setCoordOf b qid none
          | none => b) = b from rfl] at h
        split at h
        case _ pc heq =>
          cases hct : tileIdxOf pc with
          | none =>
            rw [hct] at h
            cases h
          | some ct =>
            rw [hct] at h
            simp only [Option.bind_eq_bind, Option.some_bind] at h
            cases hro : b.tiles[ct]? with
            | none =>
              rw [hro] at h
              cases h
            | some v =>
              rw [hro] at h
              simp only [Option.some_bind, Option.pure_def, Option.some.injEq] at h
              rw [← h, map_moved_setCoordOf]
              rfl
        case _ heq =>
          simp only [Option.pure_def, Option.some_bind, Option.some.injEq] at h
          rw [← h, map_moved_setCoordOf]
          rfl
      | some qid =>
        rw [show (match (some qid : Option Nat) with
          | some q2 => setCoordOf b q2 none
          | none => b) = setCoordOf b qid none from rfl] at h
        split at h
        case _ pc heq =>
          cases hct : tileIdxOf pc with
          | none =>
            rw [hct] at h
            cases h
          | some ct =>
            rw [hct] at h
            simp only [Option.bind_eq_bind, Option.some_bind] at h
            cases hro : (setCoordOf b qid none).tiles[ct]? with
            | none =>
              rw [hro] at h
              cases h
            | some v =>
              rw [hro] at h
              simp only [Option.some_bind, Option.pure_def, Option.some.injEq] at h
              rw [← h, map_moved_setCoordOf]
              show (setCoordOf b qid none).pieces.map ChessPiece.moved = _
              rw [map_moved_setCoordOf]
        case _ heq =>
          simp only [Option.pure_def, Option.some_bind, Option.some.injEq] at h
          rw [← h, map_moved_setCoordOf]
          show (setCoordOf b qid none).pieces.map ChessPiece.moved = _
          rw [map_moved_setCoordOf]

/-- C1: for every sequence of N successful `applyMove` operations
(`cmd_move_coords`) with valid in-bounds coordinates starting from any
reachable game state, calling `undoLastMove` (`cmd_undo`) N times succeeds
and restores the game exactly — in particular every tile holds the same
piece identity (hence type and team) it held before the sequence, every
piece's position is as before, and every captured piece is back in play at
its former tile. -/
theorem claim1_undo_restores (g : ChessGame) (ms : List (Coord × Coord)) (g' : ChessGame)
    (hg : Reachable g) (hms : ∀ m ∈ ms, inB m.1 ∧ inB m.2)
    (h : applyMoves g ms = some g') :
    undoN ms.length g' = some g :=
  applyMoves_undo ms g g' (reachable_goodStack g hg) hms h

/-- Witness for C1 at a concrete two-move sequence (a pawn push followed by a
capture) from the initial position. -/
theorem claim1_witness :
    undoN ([((6, 0), (4, 0)), ((1, 1), (4, 0))] : List (Coord × Coord)).length
      ((applyMoves initGame [((6, 0), (4, 0)), ((1, 1), (4, 0))]).getD initGame) =
      some initGame :=
  claim1_undo_restores initGame [((6, 0), (4, 0)), ((1, 1), (4, 0))]
    ((applyMoves initGame [((6, 0), (4, 0)), ((1, 1), (4, 0))]).getD initGame)
    Reachable.newgame (by decide) (by decide)

/-- C2: bidirectional piece-tile consistency is established by setup and
preserved by `set_piece_coord` (with a valid piece and in-bounds coordinate),
by `cmd_move_coords`, and by `cmd_undo` from reachable states; moreover in a
consistent board no piece is referenced by two tiles at once. -/
theorem claim2_consistency :
    Consistent B0 ∧
    (∀ b pid c b', Consistent b → pid < b.pieces.length → inB c →
      set_piece_coord b pid c = some b' → Consistent b') ∧
    (∀ g src dst r g', Consistent g.b → inB src → inB dst →
      cmd_move_coords g src dst = some (r, g') → Consistent g'.b) ∧
    (∀ g r g', Reachable g → cmd_undo g = some (r, g') → Consistent g'.b) ∧
    (∀ b, Consistent b → ∀ t1 t2 pid, t1 < 64 → t2 < 64 →
      b.tiles[t1]? = some (some pid) → b.tiles[t2]? = some (some pid) → t1 = t2) := by
  refine ⟨consistent_B0, ?_, ?_, ?_, ?_⟩
  · intro b pid c b' hC hpid hc h
    exact spc_preserves b pid c b' hC hpid hc h
  · intro g src dst r g' hC hs hd h
    rcases move_char g src dst r g' hC hs hd h with ⟨_, hgg⟩ | ⟨_, h2, _, _⟩
    · rw [hgg]
      exact hC
    · exact h2
  · intro g r g' hg h
    have hgs := reachable_goodStack g hg
    cases hst : g.moves_stack with
    | nil =>
      have hnil : cmd_undo g = some (-1, g) := by
        unfold cmd_undo
        rw [hst]
      rw [hnil] at h
      injection h with h1
      injection h1 with hr hg2
      rw [← hg2]
      exact goodStack_consistent g hgs
    | cons m rest =>
      obtain ⟨g0, hu, hg0, _⟩ := goodStack_undo_of_cons g hgs m rest hst
      rw [hu] at h
      injection h with h1
      injection h1 with hr hg2
      rw [← hg2]
      exact goodStack_consistent g0 hg0
  · intro b hC t1 t2 pid h1 h2 ht1 ht2
    obtain ⟨hlen, _, hTC⟩ := hC
    obtain ⟨hplt, hcl1⟩ := hTC t1 h1 (some pid) ht1 pid rfl
    obtain ⟨_, hcl2⟩ := hTC t2 h2 (some pid) ht2 pid rfl
    obtain ⟨p, hp⟩ := getElem?_isSome_of_lt b.pieces pid hplt
    have e1 := hcl1 p hp
    have e2 := hcl2 p hp
    rw [e1] at e2
    injection e2 with e3
    rw [← toIdx_coordOfIdx t1 h1, ← toIdx_coordOfIdx t2 h2, e3]

/-- Witness for C2: placing the white rook of the initial board on the empty
tile (5, 0) yields a consistent board. -/
theorem claim2_witness :
    Consistent ((set_piece_coord B0 24 (5, 0)).getD emptyBoard) :=
  claim2_consistency.2.1 B0 24 (5, 0) ((set_piece_coord B0 24 (5, 0)).getD emptyBoard)
    claim2_consistency.1 (by decide) (by decide) (by decide)

/-- Counterexample to C3 as stated: on the length-1 input "a" the parser does
not produce an `InvalidNotation` error result (the claim requires one for
every input whose length is not 2) — it raises an uncaught `IndexError`; and
on the two-character input "a" followed by the vulgar fraction one-half
(U+00BD, which is not a digit, so the claim again requires the error result)
it raises an uncaught `ValueError` from `int()`. -/
theorem claim3_counterexample :
    (['a'] : List Char).length ≠ 2 ∧
    notation_to_coord ['a'] = NotationResult.exn ∧
    notation_to_coord ['a', '\u00BD'] = NotationResult.exn ∧
    NotationResult.exn ≠ NotationResult.err := by decide

/-- C3 (amended): `notation_to_coord` raises an uncaught exception exactly on
inputs shorter than 2 characters (`IndexError`) or two-character inputs whose
second character is numeric but not a decimal digit (`ValueError` from
`int()`); it returns the `InvalidNotation` error result exactly when the
length exceeds 2, or the length is 2 and the second character is not numeric,
or it is a decimal digit but the first character is not a letter a-h or 8
minus the digit's value is outside [0, 7]; on every other two-character input
it returns the coordinate (8 - digit, letter index in "abcdefgh"). -/
theorem claim3_amended (s : List Char) :
    (notation_to_coord s = NotationResult.exn ↔ ExnCond s) ∧
    (notation_to_coord s = NotationResult.err ↔ ErrCond s) ∧
    (∀ c, notation_to_coord s = NotationResult.ok c ↔ OkCond s c) :=
  ⟨ntc_exn_iff s, ntc_err_iff s, fun c => ntc_ok_iff s c⟩

/-- Counterexample to C4 as stated: the out-of-bounds coordinate (-1, 0) does
not make `get_tile` fail — Python negative indexing wraps and returns the
tile fixed at (7, 0), holding the white rook (piece 24). -/
theorem claim4_counterexample :
    is_in_bounds (-1, 0) = false ∧
    get_tile initGame.b (-1, 0) = some (((7 : Int), (0 : Int)), some 24) := by decide

/-- C4 (amended): on a 64-tile board `get_tile` fails with `IndexError`
exactly when a component is outside [-8, 8) (not [0, 7]: negative components
in [-8, -1] wrap around, Python-style); for every in-bounds coordinate it
returns the tile whose fixed coordinate equals the argument. -/
theorem claim4_amended (b : ChessBoard) (c : Coord) (hlen : b.tiles.length = 64) :
    (get_tile b c = none ↔ ¬ pyInRange c) ∧
    (inB c → ∃ occ, get_tile b c = some (c, occ)) := by
  refine ⟨get_tile_none_iff b c hlen, ?_⟩
  intro hc
  obtain ⟨occ, _, h2⟩ := get_tile_inB b c hlen hc
  exact ⟨occ, h2⟩

/-- Witness for C4 (amended) at the concrete out-of-range coordinate (9, 0). -/
theorem claim4_witness : get_tile initGame.b (9, 0) = none :=
  (claim4_amended initGame.b (9, 0) (by decide)).1.mpr (by decide)

/-- C5 (code bug): the `_moved` flag is `False` at creation and `is_moved`
reports it, but no operation ever sets it — `set_piece_coord` leaves every
piece's flag unchanged, and after a real relocation of the initial pawn all
32 pieces still report `is_moved = False`, contradicting the documented
behaviour of `is_moved` ("returns True if the piece has been moved at least
once from its initial position"). -/
theorem claim5_moved_flag :
    (∀ pt tm, (pieceInit pt tm).moved = false ∧ is_moved (pieceInit pt tm) = false) ∧
    (∀ b pid c b', set_piece_coord b pid c = some b' →
      b'.pieces.map ChessPiece.moved = b.pieces.map ChessPiece.moved) ∧
    ((cmd_move_coords initGame (6, 0) (4, 0)).map
      (fun x => (x.1, x.2.b.pieces.map is_moved))) =
      some (0, List.replicate 32 false) := by
  refine ⟨fun pt tm => ⟨rfl, rfl⟩, ?_, by decide⟩
  intro b pid c b' h
  exact spc_moved b pid c b' h

/-- Witness for C5's preservation clause at a concrete placement. -/
theorem claim5_witness :
    ((set_piece_coord B0 24 (5, 0)).getD emptyBoard).pieces.map ChessPiece.moved =
      B0.pieces.map ChessPiece.moved :=
  claim5_moved_flag.2.1 B0 24 (5, 0) ((set_piece_coord B0 24 (5, 0)).getD emptyBoard)
    (by decide)

/-- C6: the notation codec round-trips — parsing the formatted text of any
in-bounds coordinate returns that coordinate, and formatting the coordinate
parsed from any well-formed two-character notation returns that text.  The
formatter is modelled from the spec (the source delegates it to an external
text-file microservice). -/
theorem claim6_roundtrip :
    (∀ c : Coord, inB c → notation_to_coord (notationOfCoord c) = NotationResult.ok c) ∧
    (∀ (l d : Char) (c : Coord), l ∈ letters → d ∈ digits →
      notation_to_coord [l, d] = NotationResult.ok c → notationOfCoord c = [l, d]) := by
  constructor
  · intro c hc
    obtain ⟨x, y⟩ := c
    obtain ⟨h1, h2, h3, h4⟩ := hc
    simp only at h1 h2 h3 h4
    interval_cases x <;> interval_cases y <;> decide
  · intro l d c hl hd h
    rw [ntc_ok_iff] at h
    obtain ⟨a, b2, k, dv, hab, hdec, hfl, h1d, h8d, hc⟩ := h
    injection hab with h1 h2
    injection h2 with h3 h4
    subst h1
    subst h3
    subst hc
    obtain ⟨hk8, hgk, hmem⟩ := (findLetterIdx_char l).2 k hfl
    unfold notationOfCoord
    simp only [Int.toNat_natCast]
    congr 1
    fin_cases hd <;> interval_cases dv <;>
      first
        | exact absurd hdec (by decide)
        | decide

/-- Witness for C6 at the concrete coordinate (1, 0) ("a7"). -/
theorem claim6_witness :
    notation_to_coord (notationOfCoord ((1 : Int), (0 : Int))) =
      NotationResult.ok (1, 0) ∧
    notationOfCoord ((1 : Int), (0 : Int)) = ['a', '7'] :=
  ⟨claim6_roundtrip.1 (1, 0) (by decide),
   claim6_roundtrip.2 'a' '7' (1, 0) (by decide) (by decide) (by decide)⟩

/-- C7: for every game state (with the 8x8 tile grid) and every pair of valid
in-bounds coordinates whose source tile holds no piece, the move command
fails with the `EmptySource` error result (-1) and returns the game
completely unchanged: same tiles, same pieces, same moves stack. -/
theorem claim7_empty_source (g : ChessGame) (src dst : Coord)
    (hlen : g.b.tiles.length = 64) (hs : inB src) (hd : inB dst)
    (hS : g.b.tiles[toIdx src]? = some none) :
    cmd_move_coords g src dst = some (-1, g) := by
  unfold cmd_move_coords
  rw [tileIdxOf_inB src hs]
  simp only [Option.bind_eq_bind, Option.some_bind]
  rw [hS]
  simp only [Option.some_bind, Option.pure_def]

/-- Witness for C7 at the empty tile (3, 3) of the initial position. -/
theorem claim7_witness :
    cmd_move_coords initGame (3, 3) (4, 4) = some (-1, initGame) :=
  claim7_empty_source initGame (3, 3) (4, 4) (by decide) (by decide) (by decide) (by decide)

/-- C8: `set_piece_coord` is no-op safe when a piece is placed on the very
tile it already occupies: the board afterwards is exactly the board before —
the piece still occupies the tile, its position still equals the tile's
coordinate, and no erroneous self-capture (cleared position) results. -/
theorem claim8_self_place (b : ChessBoard) (pid : Nat) (c : Coord) (p : ChessPiece)
    (hc : inB c) (hp : b.pieces[pid]? = some p) (hpc : p.coord = some c)
    (ht : b.tiles[toIdx c]? = some (some pid)) :
    set_piece_coord b pid c = some b :=
  spc_self b pid c p hc hp hpc ht

/-- Witness for C8: self-placing the white rook already at (7, 0). -/
theorem claim8_witness : set_piece_coord B0 24 ((7 : Int), (0 : Int)) = some B0 :=
  claim8_self_place B0 24 (7, 0)
    { piece_type := 'R', team := 1, coord := some (7, 0), moved := false }
    (by decide) (by decide) (by decide) (by decide)

/-- C9: every coordinate successfully returned by `notation_to_coord` is in
bounds — both components lie in [0, 7] and `is_in_bounds` accepts it — so the
move command's direct board indexing with a parsed coordinate stays in
range. -/
theorem claim9_parse_in_bounds (s : List Char) (c : Coord)
    (h : notation_to_coord s = NotationResult.ok c) :
    inB c ∧ is_in_bounds c = true := by
  rw [ntc_ok_iff] at h
  obtain ⟨a, b2, k, d, hab, hdec, hfl, h1d, h8d, hc⟩ := h
  obtain ⟨hk8, _, _⟩ := (findLetterIdx_char a).2 k hfl
  subst hc
  constructor
  · refine ⟨by omega, by omega, by omega, ?_⟩
    simp only
    exact_mod_cast hk8
  · unfold is_in_bounds
    rw [if_neg, if_neg]
    · simp only [not_or, not_lt]
      constructor
      · omega
      · omega
    · simp only [not_or, not_lt]
      constructor
      · omega
      · omega

/-- Witness for C9 at the parse of "a7". -/
theorem claim9_witness : inB ((1 : Int), (0 : Int)) ∧ is_in_bounds (1, 0) = true :=
  claim9_parse_in_bounds ['a', '7'] (1, 0) (by decide)

/-- C10: every command's required token count is fixed — `help` takes 2
tokens and `move` 3, while `board`, `newgame`, `save`, `load`, `undo` and
`exit` take exactly 1 — so dispatching the bare line "help" fails with the
arity error (status -1) instead of invoking the help handler. -/
theorem claim10_dispatch :
    get_input ['h', 'e', 'l', 'p'] = DispatchResult.arityError ∧
    dispatch_code (get_input ['h', 'e', 'l', 'p']) = some (-1) ∧
    (findCommand ['h', 'e', 'l', 'p']).map ConsoleCommand.cmd_arg_count = some 2 ∧
    (findCommand ['m', 'o', 'v', 'e']).map ConsoleCommand.cmd_arg_count = some 3 ∧
    (findCommand ['b', 'o', 'a', 'r', 'd']).map ConsoleCommand.cmd_arg_count = some 1 ∧
    (findCommand ['n', 'e', 'w', 'g', 'a', 'm', 'e']).map ConsoleCommand.cmd_arg_count = some 1 ∧
    (findCommand ['s', 'a', 'v', 'e']).map ConsoleCommand.cmd_arg_count = some 1 ∧
    (findCommand ['l', 'o', 'a', 'd']).map ConsoleCommand.cmd_arg_count = some 1 ∧
    (findCommand ['u', 'n', 'd', 'o']).map ConsoleCommand.cmd_arg_count = some 1 ∧
    (findCommand ['e', 'x', 'i', 't']).map ConsoleCommand.cmd_arg_count = some 1 := by
  decide
